import Mathlib

/-!
# QR and LQ factorisation adapters (`qr1.c`, `lq.c`)

A shallow embedding of the two MEX pipelines.  Heap buffers are functions from
an element offset to a value; the LAPACK kernel is an arbitrary function of the
call it receives and of the buffers it is handed.  The element type `α` is
left abstract (only `0`, `1` and the conversion of an index to an element are
used by the adapters); the conversion of an index rounds to the significand of
the element type (`castIndex`) and `conv` names the element that holds a given
integer value.  `size_t` values are natural numbers below `2 ^ 64`; the
subtraction and the multiplications the code performs on them wrap explicitly.
-/

namespace Factor

/-! ## Host array model -/

/-- Class identifiers of the host arrays the two files create or accept. -/
inductive ClassID where
  | mxDOUBLE_CLASS
  | mxSINGLE_CLASS
  | mxUNKNOWN_CLASS
  deriving DecidableEq, Repr

/-- Host numeric matrix: `mxGetM`, `mxGetN`, class, `mxIsComplex`, and the
column-major real (`mxGetData`) and imaginary (`mxGetImagData`) parts. -/
structure MxArray (α : Type) where
  m : Nat
  n : Nat
  classid : ClassID
  cplx : Bool
  pr : Nat → α
  pi : Nat → α

/-- An option argument (`prhs[1]`, `prhs[2]`) as seen through the host calls the
code makes on it: `mxIsChar`, `mxArrayToString` and `mxGetScalar`. -/
structure MxOpt where
  isChar : Bool
  str : String
  scalar : Int
  deriving DecidableEq, Repr

/-- Store `v` at offset `k`. -/
def store {β : Type} (b : Nat → β) (k : Nat) (v : β) : Nat → β :=
  fun x => if x = k then v else b x

/-- The C loop `for (i = lo; i < hi; i++) body`, as a state transformer. -/
def forUp {σ : Type} (lo : Nat) : Nat → (Nat → σ → σ) → σ → σ
  | 0, _, s => s
  | hi + 1, body, s => if lo ≤ hi then body hi (forUp lo hi body s) else s

/-- The host call `mxCreateNumericMatrix(m,n,classid,cplxflag)`: zero filled. -/
def mxCreateNumericMatrix {α : Type} [Zero α] (m n : Nat) (classid : ClassID)
    (cplx : Bool) : MxArray α :=
  { m := m, n := n, classid := classid, cplx := cplx, pr := fun _ => 0, pi := fun _ => 0 }

/-- Entry `(i,j)` of a host matrix, real part. -/
def MxArray.re {α : Type} (M : MxArray α) (i j : Nat) : α := M.pr (j * M.m + i)

/-- Entry `(i,j)` of a host matrix, imaginary part. -/
def MxArray.im {α : Type} (M : MxArray α) (i j : Nat) : α := M.pi (j * M.m + i)

/-- Number of values of `size_t`. -/
def SIZE_RANGE : Nat := 2 ^ 64

/-- Subtraction of `size_t` values (wraps around). -/
def usub (a b : Nat) : Nat := (a + SIZE_RANGE - b % SIZE_RANGE) % SIZE_RANGE

/-- Conversion of a `ptrdiff_t` to `size_t`. -/
def toSizeT (x : Int) : Nat := (x % (SIZE_RANGE : Int)).toNat

/-- Multiplication of `size_t` values (wraps around). -/
def umul (a b : Nat) : Nat := (a * b) % SIZE_RANGE

/-! ## Kernel model -/

/-- The two element widths: `qr_single`/`lq_single` and `qr_double`/`lq_double`. -/
inductive Width where
  | narrow
  | wide
  deriving DecidableEq, Repr

/-- Class of the matrices a pipeline of the given width creates. -/
def Width.classid : Width → ClassID
  | .narrow => .mxSINGLE_CLASS
  | .wide => .mxDOUBLE_CLASS

/-- The constant `element_size`: `sizeof(float)` or `sizeof(double)`. -/
def Width.elementSize : Width → Nat
  | .narrow => 4
  | .wide => 8

/-- Significand width of the element type: 24 bits for `float`, 53 for `double`. -/
def Width.sigBits : Width → Nat
  | .narrow => 24
  | .wide => 53

/-- Number of low bits of `x` that do not fit a significand of `p` bits: the
least `e ≤ fuel` with `x < 2^(p+e)`. -/
def excessBits (p : Nat) : Nat → Nat → Nat
  | 0, _ => 0
  | fuel + 1, x => if x < 2 ^ p then 0 else excessBits p fuel (x / 2) + 1

/-- The integer nearest to `x` among those with a significand of `p` bits, ties
to the even significand (the default rounding of a C conversion of an integer
to a floating type). -/
def roundNearestEven (p x : Nat) : Nat :=
  let e := excessBits p 64 x
  let q := x / 2 ^ e
  let r := x % 2 ^ e
  if 2 * r < 2 ^ e then q * 2 ^ e
  else if 2 * r = 2 ^ e ∧ q % 2 = 0 then q * 2 ^ e
  else (q + 1) * 2 ^ e

/-- Value of the conversions `(float)x` and `(double)x` of a `ptrdiff_t`. -/
def castIndex (w : Width) (x : Int) : Int :=
  if 0 ≤ x then (roundNearestEven w.sigBits x.toNat : Int)
  else - (roundNearestEven w.sigBits (-x).toNat : Int)

/-- The LAPACK entry families the two files call. -/
inductive Entry where
  | geqrf
  | geqrfp
  | geqp3
  | orgqr
  | gelqf
  | orglq
  deriving DecidableEq, Repr

/-- A LAPACK routine: family, domain and width, e.g. `zgeqp3` is
`⟨.geqp3, true, .wide⟩` and `sorgqr` is `⟨.orgqr, false, .narrow⟩`. -/
structure Routine where
  entry : Entry
  cplx : Bool
  width : Width
  deriving DecidableEq, Repr

/-- LAPACK name of a routine (`xORGQR` is `xUNGQR` in the complex domain). -/
def Routine.name (r : Routine) : String :=
  (match r.cplx, r.width with
    | false, .narrow => "S"
    | false, .wide => "D"
    | true, .narrow => "C"
    | true, .wide => "Z") ++
  (match r.entry, r.cplx with
    | .geqrf, _ => "GEQRF"
    | .geqrfp, _ => "GEQRFP"
    | .geqp3, _ => "GEQP3"
    | .orgqr, false => "ORGQR"
    | .orgqr, true => "UNGQR"
    | .gelqf, _ => "GELQF"
    | .orglq, false => "ORGLQ"
    | .orglq, true => "UNGLQ")

/-- One kernel invocation: the routine and its scalar arguments.  `k` is the
generator count of an expansion call; `lwork = -1` is the workspace query. -/
structure KCall where
  routine : Routine
  rows : Nat
  cols : Nat
  k : Option Nat
  lda : Nat
  lwork : Int
  deriving DecidableEq, Repr

/-- The buffers a kernel call may overwrite. -/
structure KBuf (α : Type) where
  a : Nat → α
  tau : Nat → α
  jp : Nat → Int

/-- What a kernel call leaves behind: the buffers, the first workspace
element and the status `info`. -/
structure KRes (α : Type) where
  buf : KBuf α
  work0 : Int
  info : Int

/-- A kernel: any function of the position of the call in the run, the call and
the buffers. -/
abbrev Kernel (α : Type) := Nat → KCall → KBuf α → KRes α

/-- Outcome of a pipeline run: the kernel calls made in order, the number of
bytes requested from `mxMalloc` for the scratch matrix, its leading dimension,
and either the error message or the output slots `plhs`. -/
structure Run (α : Type) where
  calls : List KCall
  scratchBytes : Nat
  lda : Nat
  out : Except String (Nat → Option (MxArray α))

/-! ## Stages shared by the pipelines -/

/-- Copy input to A matrix (`lda` is `m` in `qr1.c`). -/
def packInput {α : Type} (cplx : Bool) (m n lda : Nat) (Ipr Ipi Ap : Nat → α) : Nat → α :=
  if cplx then
    forUp 0 m (fun i Ap =>
      forUp 0 n (fun j Ap =>
        store (store Ap (j*2*lda+2*i) (Ipr (j*m+i))) (j*2*lda+2*i+1) (Ipi (j*m+i))) Ap) Ap
  else
    forUp 0 m (fun i Ap =>
      forUp 0 n (fun j Ap => store Ap (j*lda+i) (Ipr (j*m+i))) Ap) Ap

/-- The output slots before any assignment. -/
def noOutputs {α : Type} : Nat → Option (MxArray α) := fun _ => none

/-! ## `qr1.c` -/

/-- The option flags of `qr_double`/`qr_single`. -/
structure QrOpts where
  econ : Bool
  vector : Bool
  positive : Bool
  deriving DecidableEq, Repr

/-- Option decoding of `qr_double`/`qr_single` (`prhs` holds `prhs[1..]`, so
`nrhs = prhs.length + 1`). -/
def qrOptions (prhs : List MxOpt) : QrOpts :=
  match prhs with
  | [] => { econ := false, vector := false, positive := false }
  | p1 :: rest =>
    if p1.isChar then
      { econ := false, vector := decide (p1.str = "vector"),
        positive := decide (p1.str = "pos") }
    else
      { econ := decide (p1.scalar = 0), vector := decide (p1.scalar = 0),
        positive :=
          match rest with
          | [p2] => p2.isChar && decide (p2.str = "pos")
          | _ => false }

/-- The zero-size branch of `qr_double`/`qr_single`. -/
def qrEmpty {α : Type} [Zero α] [One α] (classid : ClassID) (cplx : Bool)
    (nlhs m n : Nat) : Nat → Option (MxArray α) :=
  if nlhs = 1 then
    store noOutputs 0 (some (mxCreateNumericMatrix m n classid cplx))
  else
    let plhs := store noOutputs 1 (some (mxCreateNumericMatrix m n classid cplx))
    let Q : MxArray α := mxCreateNumericMatrix m m classid cplx
    let Q := if m ≠ 0 then
        forUp 0 m (fun j (Q : MxArray α) => { Q with pr := store Q.pr (j*m + j) 1 }) Q
      else Q
    store plhs 0 (some Q)

/-- Byte count passed to `mxMalloc` for the scratch of `qr1.c`:
`dc*m*m*element_size` or `dc*m*n*element_size`, computed in `size_t`. -/
def qrScratchBytes (w : Width) (cplx econ : Bool) (m n : Nat) : Nat :=
  let dc := if cplx then 2 else 1
  let element_size := w.elementSize
  if n < m ∧ econ ≠ true then umul (umul (umul dc m) m) element_size
  else umul (umul (umul dc m) n) element_size

/-- Pack, workspace query and execute call of the factorize entry.  Returns the
two calls and what the execute call left. -/
def qrFactorize {α : Type} (w : Width) (K : Kernel α) (heap : KBuf α)
    (nlhs : Nat) (A : MxArray α) (positive : Bool) : List KCall × KRes α :=
  let perm := decide (nlhs = 3)
  let cplx := A.cplx
  let m := A.m
  let n := A.n
  let Ap := packInput cplx m n m A.pr A.pi heap.a
  let q : KCall :=
    if perm then
      (if cplx then ⟨⟨.geqp3, true, w⟩, m, n, none, m, -1⟩
       else ⟨⟨.geqp3, false, w⟩, m, n, none, m, -1⟩)
    else if positive then
      (if cplx then ⟨⟨.geqrfp, true, w⟩, m, n, none, m, -1⟩
       else ⟨⟨.geqrfp, false, w⟩, m, n, none, m, -1⟩)
    else
      (if cplx then ⟨⟨.geqrf, true, w⟩, m, n, none, m, -1⟩
       else ⟨⟨.geqrf, false, w⟩, m, n, none, m, -1⟩)
  let r1 := K 0 q { a := Ap, tau := heap.tau, jp := heap.jp }
  let lwork := r1.work0
  let e : KCall :=
    if perm then
      (if cplx then ⟨⟨.geqp3, true, w⟩, m, n, none, m, lwork⟩
       else ⟨⟨.geqp3, false, w⟩, m, n, none, m, lwork⟩)
    else if positive then
      (if cplx then ⟨⟨.geqrfp, true, w⟩, m, n, none, m, lwork⟩
       else ⟨⟨.geqrfp, false, w⟩, m, n, none, m, lwork⟩)
    else
      (if cplx then ⟨⟨.geqrf, true, w⟩, m, n, none, m, lwork⟩
       else ⟨⟨.geqrf, false, w⟩, m, n, none, m, lwork⟩)
  ([q, e], K 1 e r1.buf)

/-- Error message after a failed factorize execute call. -/
def qrFactorMsg (w : Width) (perm positive cplx : Bool) : String :=
  match w with
  | .wide =>
    if perm then (if cplx then "ZGEQP3 not successful" else "DGEQP3 not successful")
    else if positive then
      (if cplx then "ZGEQRFP not successful" else "DGEQRFP not successful")
    else (if cplx then "ZGEQRF not successful" else "DGEQRF not successful")
  | .narrow =>
    if perm then (if cplx then "CGEQP3 not successful" else "SGEQP3 not successful")
    else if positive then
      (if cplx then "CGEQRFP not successful" else "SGEQRFP not successful")
    else (if cplx then "CGEQRF not successful" else "SGEQRF not successful")

/-- The per-column clamp `limit = j < min_mn-1 ? j : min_mn-1` of `qr1.c`. -/
def qrLimit (min_mn j : Nat) : Nat :=
  if j < usub min_mn 1 then j else usub min_mn 1

/-- Extraction of the triangular factor from the scratch `Ap` in
`qr_double`/`qr_single`. -/
def qrTriangular {α : Type} [Zero α] (classid : ClassID) (cplx econ : Bool)
    (m n : Nat) (Ap : Nat → α) : MxArray α :=
  let min_mn := min m n
  if econ = true ∧ n < m then
    let R : MxArray α := mxCreateNumericMatrix n n classid cplx
    if cplx then
      forUp 0 n (fun j R =>
        let limit := qrLimit min_mn j
        forUp 0 (limit + 1) (fun i (R : MxArray α) =>
          { R with pr := store R.pr (j*n+i) (Ap (2*j*m+2*i)),
                   pi := store R.pi (j*n+i) (Ap (2*j*m+2*i+1)) }) R) R
    else
      forUp 0 n (fun j R =>
        let limit := qrLimit min_mn j
        forUp 0 (limit + 1) (fun i (R : MxArray α) =>
          { R with pr := store R.pr (j*n+i) (Ap (j*m+i)) }) R) R
  else
    let R : MxArray α := mxCreateNumericMatrix m n classid cplx
    if cplx then
      forUp 0 n (fun j R =>
        let limit := qrLimit min_mn j
        forUp 0 (limit + 1) (fun i (R : MxArray α) =>
          { R with pr := store R.pr (j*m+i) (Ap (2*j*m+2*i)),
                   pi := store R.pi (j*m+i) (Ap (2*j*m+2*i+1)) }) R) R
    else
      forUp 0 n (fun j R =>
        let limit := qrLimit min_mn j
        forUp 0 (limit + 1) (fun i (R : MxArray α) =>
          { R with pr := store R.pr (j*m+i) (Ap (j*m+i)) }) R) R

/-- The permutation output of `qr_double`/`qr_single`; `conv` is the C
conversion of an index to the element type (`(double)` or `(float)`). -/
def qrPermutation {α : Type} [Zero α] [One α] (classid : ClassID) (conv : Int → α)
    (vector : Bool) (n : Nat) (Jp : Nat → Int) : MxArray α :=
  if vector then
    forUp 0 n (fun i (E : MxArray α) => { E with pr := store E.pr i (conv (Jp i)) })
      (mxCreateNumericMatrix n 1 classid false)
  else
    forUp 0 n (fun i (E : MxArray α) =>
        let idx := toSizeT (Jp i - 1)
        { E with pr := store E.pr (i*n+idx) 1 })
      (mxCreateNumericMatrix n n classid false)

/-- Workspace query and execute call of the expansion entry of `qr1.c`. -/
def qrExpand {α : Type} (w : Width) (K : Kernel α) (cplx econ : Bool) (m n : Nat)
    (buf : KBuf α) : List KCall × KRes α :=
  let min_mn := min m n
  let n2 := if econ = true then min_mn else m
  let q : KCall :=
    if cplx then ⟨⟨.orgqr, true, w⟩, m, n2, some min_mn, m, -1⟩
    else ⟨⟨.orgqr, false, w⟩, m, n2, some min_mn, m, -1⟩
  let r1 := K 2 q buf
  let lwork := r1.work0
  let e : KCall :=
    if cplx then ⟨⟨.orgqr, true, w⟩, m, n2, some min_mn, m, lwork⟩
    else ⟨⟨.orgqr, false, w⟩, m, n2, some min_mn, m, lwork⟩
  ([q, e], K 3 e r1.buf)

/-- Error message after a failed expansion execute call in `qr1.c`. -/
def qrExpandMsg (w : Width) (cplx : Bool) : String :=
  match w with
  | .wide => if cplx then "DUNGQR not successful" else "DORGQR not successful"
  | .narrow => if cplx then "CUNGQR not successful" else "SORGQR not successful"

/-- Copy of the expanded scratch into the orthogonal factor in `qr1.c`. -/
def qrOrthogonal {α : Type} [Zero α] (classid : ClassID) (cplx : Bool) (m n2 : Nat)
    (Ap : Nat → α) : MxArray α :=
  let Q : MxArray α := mxCreateNumericMatrix m n2 classid cplx
  if cplx then
    forUp 0 m (fun i Q =>
      forUp 0 n2 (fun j (Q : MxArray α) =>
        { Q with pr := store Q.pr (j*m+i) (Ap (j*2*m+2*i)),
                 pi := store Q.pi (j*m+i) (Ap (j*2*m+2*i+1)) }) Q) Q
  else
    forUp 0 m (fun i Q =>
      forUp 0 n2 (fun j (Q : MxArray α) =>
        { Q with pr := store Q.pr (j*m+i) (Ap (j*m+i)) }) Q) Q

/-- The body shared by `qr_double` and `qr_single`, which differ in the class
created, the routines called and the messages.  `heap` is what the freshly
allocated buffers hold, `prhs` the arguments after the matrix, `conv x` the
element whose value is the integer `x`, so that the conversion `(double)Jp[i]`
or `(float)Jp[i]` is `conv (castIndex w (Jp i))`. -/
def qr_pipeline {α : Type} [Zero α] [One α] (w : Width) (conv : Int → α)
    (K : Kernel α) (heap : KBuf α) (nlhs : Nat) (A : MxArray α)
    (prhs : List MxOpt) : Run α :=
  let classid := w.classid
  let perm := decide (nlhs = 3)
  let cplx := A.cplx
  let m := A.m
  let n := A.n
  if m = 0 ∨ n = 0 then
    { calls := [], scratchBytes := 0, lda := 0,
      out := .ok (qrEmpty classid cplx nlhs m n) }
  else
    let o := qrOptions prhs
    let bytes := qrScratchBytes w cplx o.econ m n
    let f := qrFactorize w K heap nlhs A o.positive
    if f.2.info ≠ 0 then
      { calls := f.1, scratchBytes := bytes, lda := m,
        out := .error (qrFactorMsg w perm o.positive cplx) }
    else
      let R := qrTriangular classid cplx o.econ m n f.2.buf.a
      let plhs :=
        if nlhs = 1 then store noOutputs 0 (some R) else store noOutputs 1 (some R)
      let plhs :=
        if perm then
          store plhs 2 (some (qrPermutation classid (fun x => conv (castIndex w x))
            o.vector n f.2.buf.jp))
        else plhs
      if 2 ≤ nlhs then
        let n2 := if o.econ = true then min m n else m
        let x := qrExpand w K cplx o.econ m n f.2.buf
        if x.2.info ≠ 0 then
          { calls := f.1 ++ x.1, scratchBytes := bytes, lda := m,
            out := .error (qrExpandMsg w cplx) }
        else
          { calls := f.1 ++ x.1, scratchBytes := bytes, lda := m,
            out := .ok (store plhs 0 (some (qrOrthogonal classid cplx m n2 x.2.buf.a))) }
      else
        { calls := f.1, scratchBytes := bytes, lda := m, out := .ok plhs }

/-- Model of `qr_double`. -/
def qr_double {α : Type} [Zero α] [One α] (conv : Int → α) (K : Kernel α)
    (heap : KBuf α) (nlhs : Nat) (A : MxArray α) (prhs : List MxOpt) : Run α :=
  qr_pipeline .wide conv K heap nlhs A prhs

/-- Model of `qr_single`. -/
def qr_single {α : Type} [Zero α] [One α] (conv : Int → α) (K : Kernel α)
    (heap : KBuf α) (nlhs : Nat) (A : MxArray α) (prhs : List MxOpt) : Run α :=
  qr_pipeline .narrow conv K heap nlhs A prhs

/-! ## `lq.c` -/

/-- The zero-size branch of `lq_double`/`lq_single`. -/
def lqEmpty {α : Type} [Zero α] [One α] (classid : ClassID) (cplx : Bool)
    (nlhs m n : Nat) : Nat → Option (MxArray α) :=
  if nlhs = 1 then
    store noOutputs 0 (some (mxCreateNumericMatrix m n classid cplx))
  else
    let plhs := store noOutputs 0 (some (mxCreateNumericMatrix m n classid cplx))
    let Q : MxArray α := mxCreateNumericMatrix n n classid cplx
    let Q := if n ≠ 0 then
        forUp 0 n (fun j (Q : MxArray α) => { Q with pr := store Q.pr (j*n + j) 1 }) Q
      else Q
    store plhs 1 (some Q)

/-- Economy flag of `lq.c`: `nrhs == 2` and `mxGetScalar(prhs[1]) == 0`. -/
def lqEcon (prhs : List MxOpt) : Bool :=
  match prhs with
  | [p1] => decide (p1.scalar = 0)
  | _ => false

/-- Leading dimension chosen by `lq.c`. -/
def lqLda (econ : Bool) (m n : Nat) : Nat :=
  if m < n ∧ econ ≠ true then n else m

/-- Byte count passed to `mxMalloc` for the scratch of `lq.c`:
`dc*n*n*element_size` or `dc*m*n*element_size`, computed in `size_t`. -/
def lqScratchBytes (w : Width) (cplx econ : Bool) (m n : Nat) : Nat :=
  let dc := if cplx then 2 else 1
  let element_size := w.elementSize
  if m < n ∧ econ ≠ true then umul (umul (umul dc n) n) element_size
  else umul (umul (umul dc m) n) element_size

/-- Pack, workspace query and execute call of the factorize entry of `lq.c`. -/
def lqFactorize {α : Type} (w : Width) (K : Kernel α) (heap : KBuf α)
    (A : MxArray α) (econ : Bool) : List KCall × KRes α :=
  let cplx := A.cplx
  let m := A.m
  let n := A.n
  let lda := lqLda econ m n
  let Ap := packInput cplx m n lda A.pr A.pi heap.a
  let q : KCall :=
    if cplx then ⟨⟨.gelqf, true, w⟩, m, n, none, lda, -1⟩
    else ⟨⟨.gelqf, false, w⟩, m, n, none, lda, -1⟩
  let r1 := K 0 q { a := Ap, tau := heap.tau, jp := heap.jp }
  let lwork := r1.work0
  let e : KCall :=
    if cplx then ⟨⟨.gelqf, true, w⟩, m, n, none, lda, lwork⟩
    else ⟨⟨.gelqf, false, w⟩, m, n, none, lda, lwork⟩
  ([q, e], K 1 e r1.buf)

/-- Error message after a failed factorize execute call in `lq.c`. -/
def lqFactorMsg (w : Width) (cplx : Bool) : String :=
  match w with
  | .wide => if cplx then "ZGELQF not successful" else "DGELQF not successful"
  | .narrow => if cplx then "CGELQF not successful" else "SGELQF not successful"

/-- Extraction of the triangular factor from the scratch `Ap` in
`lq_double`/`lq_single`. -/
def lqTriangular {α : Type} [Zero α] (classid : ClassID) (cplx econ : Bool)
    (m n lda : Nat) (Ap : Nat → α) : MxArray α :=
  let min_mn := min m n
  if econ = true ∧ m < n then
    let L : MxArray α := mxCreateNumericMatrix m m classid cplx
    if cplx then
      forUp 0 m (fun j L =>
        let start := if j < m then j else m
        forUp start m (fun i (L : MxArray α) =>
          { L with pr := store L.pr (j*m+i) (Ap (j*2*lda+2*i)),
                   pi := store L.pi (j*m+i) (Ap (j*2*lda+2*i+1)) }) L) L
    else
      forUp 0 m (fun j L =>
        let start := if j < m then j else m
        forUp start m (fun i (L : MxArray α) =>
          { L with pr := store L.pr (j*m+i) (Ap (j*lda+i)) }) L) L
  else
    let L : MxArray α := mxCreateNumericMatrix m n classid cplx
    if cplx then
      forUp 0 n (fun j L =>
        let start := if j < min_mn then j else min_mn
        forUp start m (fun i (L : MxArray α) =>
          { L with pr := store L.pr (j*m+i) (Ap (j*2*lda+2*i)),
                   pi := store L.pi (j*m+i) (Ap (j*2*lda+2*i+1)) }) L) L
    else
      forUp 0 n (fun j L =>
        let start := if j < min_mn then j else min_mn
        forUp start m (fun i (L : MxArray α) =>
          { L with pr := store L.pr (j*m+i) (Ap (j*lda+i)) }) L) L

/-- Workspace query and execute call of the expansion entry of `lq.c`. -/
def lqExpand {α : Type} (w : Width) (K : Kernel α) (cplx econ : Bool) (m n lda : Nat)
    (buf : KBuf α) : List KCall × KRes α :=
  let min_mn := min m n
  let m2 := if econ = true then min_mn else n
  let q : KCall :=
    if cplx then ⟨⟨.orglq, true, w⟩, m2, n, some min_mn, lda, -1⟩
    else ⟨⟨.orglq, false, w⟩, m2, n, some min_mn, lda, -1⟩
  let r1 := K 2 q buf
  let lwork := r1.work0
  let e : KCall :=
    if cplx then ⟨⟨.orglq, true, w⟩, m2, n, some min_mn, lda, lwork⟩
    else ⟨⟨.orglq, false, w⟩, m2, n, some min_mn, lda, lwork⟩
  ([q, e], K 3 e r1.buf)

/-- Error message after a failed expansion execute call in `lq.c`. -/
def lqExpandMsg (w : Width) (cplx : Bool) : String :=
  match w with
  | .wide => if cplx then "ZUNGLQ not successful" else "DORGLQ not successful"
  | .narrow => if cplx then "CUNGLQ not successful" else "SORGLQ not successful"

/-- Copy of the expanded scratch into the orthogonal factor in `lq.c`. -/
def lqOrthogonal {α : Type} [Zero α] (classid : ClassID) (cplx : Bool) (m2 n lda : Nat)
    (Ap : Nat → α) : MxArray α :=
  let Q : MxArray α := mxCreateNumericMatrix m2 n classid cplx
  if cplx then
    forUp 0 m2 (fun i Q =>
      forUp 0 n (fun j (Q : MxArray α) =>
        { Q with pr := store Q.pr (j*m2+i) (Ap (j*2*lda+2*i)),
                 pi := store Q.pi (j*m2+i) (Ap (j*2*lda+2*i+1)) }) Q) Q
  else
    forUp 0 m2 (fun i Q =>
      forUp 0 n (fun j (Q : MxArray α) =>
        { Q with pr := store Q.pr (j*m2+i) (Ap (j*lda+i)) }) Q) Q

/-- The body shared by `lq_double` and `lq_single`. -/
def lq_pipeline {α : Type} [Zero α] [One α] (w : Width) (K : Kernel α)
    (heap : KBuf α) (nlhs : Nat) (A : MxArray α) (prhs : List MxOpt) : Run α :=
  let classid := w.classid
  let cplx := A.cplx
  let m := A.m
  let n := A.n
  if m = 0 ∨ n = 0 then
    { calls := [], scratchBytes := 0, lda := 0,
      out := .ok (lqEmpty classid cplx nlhs m n) }
  else
    let econ := lqEcon prhs
    let lda := lqLda econ m n
    let bytes := lqScratchBytes w cplx econ m n
    let f := lqFactorize w K heap A econ
    if f.2.info ≠ 0 then
      { calls := f.1, scratchBytes := bytes, lda := lda,
        out := .error (lqFactorMsg w cplx) }
    else
      let L := lqTriangular classid cplx econ m n lda f.2.buf.a
      let plhs := store noOutputs 0 (some L)
      if nlhs = 2 then
        let m2 := if econ = true then min m n else n
        let x := lqExpand w K cplx econ m n lda f.2.buf
        if x.2.info ≠ 0 then
          { calls := f.1 ++ x.1, scratchBytes := bytes, lda := lda,
            out := .error (lqExpandMsg w cplx) }
        else
          { calls := f.1 ++ x.1, scratchBytes := bytes, lda := lda,
            out := .ok (store plhs 1 (some (lqOrthogonal classid cplx m2 n lda x.2.buf.a))) }
      else
        { calls := f.1, scratchBytes := bytes, lda := lda, out := .ok plhs }

/-- Model of `lq_double`. -/
def lq_double {α : Type} [Zero α] [One α] (K : Kernel α)
    (heap : KBuf α) (nlhs : Nat) (A : MxArray α) (prhs : List MxOpt) : Run α :=
  lq_pipeline .wide K heap nlhs A prhs

/-- Model of `lq_single`. -/
def lq_single {α : Type} [Zero α] [One α] (K : Kernel α)
    (heap : KBuf α) (nlhs : Nat) (A : MxArray α) (prhs : List MxOpt) : Run α :=
  lq_pipeline .narrow K heap nlhs A prhs

/-! ## Entry points (`mexFunction`) -/

/-- The first argument `prhs[0]` as the gate sees it: `mxIsNumeric`,
`mxIsSparse`, and the matrix itself, whose class answers `mxIsDouble` and
`mxIsSingle`. -/
structure HostArg (α : Type) where
  numeric : Bool
  sparse : Bool
  arr : MxArray α

/-- The arguments of a call: `first` is `prhs[0]` (absent when `nrhs = 0`), `rest`
is `prhs[1..]`. -/
structure MexArgs (α : Type) where
  first : Option (HostArg α)
  rest : List MxOpt

/-- The argument count `nrhs`. -/
def MexArgs.nrhs {α : Type} (a : MexArgs α) : Nat :=
  match a.first with
  | none => 0
  | some _ => 1 + a.rest.length

/-- A run ended by `mexErrMsgTxt` before any pipeline stage. -/
def errRun {α : Type} (msg : String) : Run α :=
  { calls := [], scratchBytes := 0, lda := 0, out := .error msg }

/-- Model of `mexFunction` of `qr1.c`. -/
def mexFunction_qr {α : Type} [Zero α] [One α] (conv : Int → α) (K : Kernel α)
    (heap : KBuf α) (nlhs : Nat) (args : MexArgs α) : Run α :=
  if args.nrhs ≠ 1 ∧ args.nrhs ≠ 2 ∧ args.nrhs ≠ 3 then
    errRun "QR1 requires one, two, or three input arguments."
  else if nlhs > 3 then
    errRun "Too many output arguments."
  else
    match args.first with
    | none => errRun "QR1 requires one, two, or three input arguments."
    | some p0 =>
      if (!p0.numeric || p0.sparse) = true then
        errRun "Input must be a full matrix."
      else if p0.arr.classid = .mxDOUBLE_CLASS then
        qr_double conv K heap nlhs p0.arr args.rest
      else if p0.arr.classid = .mxSINGLE_CLASS then
        qr_single conv K heap nlhs p0.arr args.rest
      else
        errRun "Class is not supported."

/-- Model of `mexFunction` of `lq.c`. -/
def mexFunction_lq {α : Type} [Zero α] [One α] (K : Kernel α)
    (heap : KBuf α) (nlhs : Nat) (args : MexArgs α) : Run α :=
  if args.nrhs ≠ 1 ∧ args.nrhs ≠ 2 then
    errRun "LQ requires one or two input arguments."
  else if nlhs > 2 then
    errRun "Too many output arguments."
  else
    match args.first with
    | none => errRun "LQ requires one or two input arguments."
    | some p0 =>
      if (!p0.numeric || p0.sparse) = true then
        errRun "Input must be a full matrix."
      else if p0.arr.classid = .mxDOUBLE_CLASS then
        lq_double K heap nlhs p0.arr args.rest
      else if p0.arr.classid = .mxSINGLE_CLASS then
        lq_single K heap nlhs p0.arr args.rest
      else
        errRun "Class is not supported."

/-! ## Concrete inputs -/

/-- A kernel that adds 100 to every scratch element at each call, reports the
pivots `2, 1, 1, ...`, asks for 8 workspace elements and succeeds. -/
def exKernel : Kernel Int := fun _ _ b =>
  { buf := { a := fun x => b.a x + 100, tau := b.tau,
             jp := fun i => if i = 0 then 2 else 1 },
    work0 := 8, info := 0 }

/-- Fresh heap contents: every allocated cell holds 7. -/
def exHeap : KBuf Int := { a := fun _ => 7, tau := fun _ => 7, jp := fun _ => 7 }

/-- The real double matrix `[[1,2],[3,4],[5,6]]`. -/
def exA32 : MxArray Int :=
  { m := 3, n := 2, classid := .mxDOUBLE_CLASS, cplx := false,
    pr := fun k => [1, 3, 5, 2, 4, 6].getD k 0, pi := fun _ => 0 }

/-- The real double matrix `[[1,3,5],[2,4,6]]`. -/
def exA23 : MxArray Int :=
  { m := 2, n := 3, classid := .mxDOUBLE_CLASS, cplx := false,
    pr := fun k => [1, 2, 3, 4, 5, 6].getD k 0, pi := fun _ => 0 }

/-- The numeric option `0`. -/
def optZero : MxOpt := { isChar := false, str := "", scalar := 0 }

/-- An empty real double matrix with 0 rows and 3 columns. -/
def exA03 : MxArray Int :=
  { m := 0, n := 3, classid := .mxDOUBLE_CLASS, cplx := false,
    pr := fun _ => 0, pi := fun _ => 0 }

/-- An empty real double matrix with 3 rows and 0 columns. -/
def exA30 : MxArray Int :=
  { m := 3, n := 0, classid := .mxDOUBLE_CLASS, cplx := false,
    pr := fun _ => 0, pi := fun _ => 0 }

/-- The pivot array `2, 1` (and 1 beyond). -/
def exJ : Nat → Int := fun i => if i = 0 then 2 else 1

/-- A kernel that reports status 1 on every workspace query (`lwork = -1`) and
status 0 on every execute call, leaving the buffers as they are. -/
def exKernelQueryFails : Kernel Int := fun _ c b =>
  { buf := b, work0 := 8, info := if c.lwork = -1 then 1 else 0 }

/-- A kernel whose factorize calls succeed and whose expansion calls
(`xORGQR`/`xUNGQR`, `xORGLQ`/`xUNGLQ`) report status 3 on the execute call. -/
def exKernelExpandFails : Kernel Int := fun _ c b =>
  { buf := b, work0 := 8,
    info := if (c.routine.entry = .orgqr ∨ c.routine.entry = .orglq) ∧ c.lwork ≠ -1
            then 3 else 0 }

/-- The complex double matrix with the real parts of `exA32` and imaginary
parts all 1. -/
def exZ32 : MxArray Int :=
  { m := 3, n := 2, classid := .mxDOUBLE_CLASS, cplx := true,
    pr := fun k => [1, 3, 5, 2, 4, 6].getD k 0, pi := fun _ => 1 }

/-- The string option `'pos'`. -/
def optPos : MxOpt := { isChar := true, str := "pos", scalar := 112 }

/-- The string option `'vector'`. -/
def optVector : MxOpt := { isChar := true, str := "vector", scalar := 118 }

/-- A full real double argument holding `exA32`. -/
def exArg32 : HostArg Int := { numeric := true, sparse := false, arr := exA32 }

/-- A sparse double argument with the shape of `exA32`. -/
def exArgSparse : HostArg Int := { numeric := true, sparse := true, arr := exA32 }

/-- A real single matrix with 1 row and `2^24 + 1` columns, every entry 1. -/
def exRow24 : MxArray Int :=
  { m := 1, n := 16777217, classid := .mxSINGLE_CLASS, cplx := false,
    pr := fun _ => 1, pi := fun _ => 0 }

/-- The pivot array `1, 2, 3, ...` of a factorisation that exchanges no column. -/
def exJid : Nat → Int := fun i => (i : Int) + 1

/-- A kernel that leaves the scratch as it is, reports the pivots `exJid`, asks
for 8 workspace elements and succeeds. -/
def exKernelNoPivot : Kernel Int := fun _ _ b =>
  { buf := { a := b.a, tau := b.tau, jp := exJid }, work0 := 8, info := 0 }

theorem umul3 (a b c d : Nat) :
    umul (umul (umul a b) c) d = (a * b * c * d) % SIZE_RANGE := by
  unfold umul
  rw [Nat.mod_mul_mod, Nat.mul_assoc, Nat.mod_mul_mod, ← Nat.mul_assoc]

theorem qrScratchBytes_eq (w : Width) (cplx econ : Bool) (m n : Nat) :
    qrScratchBytes w cplx econ m n
      = ((if cplx = true then 2 else 1) * (if n < m ∧ econ = false then m * m else m * n)
          * w.elementSize) % SIZE_RANGE := by
  unfold qrScratchBytes
  dsimp only
  rw [umul3, umul3]
  cases cplx <;> cases econ <;> simp [Nat.mul_assoc] <;> split_ifs <;> rfl

theorem forUp_ge {σ : Type} (lo hi : Nat) (body : Nat → σ → σ) (s : σ) (h : hi ≤ lo) :
    forUp lo hi body s = s := by
  cases hi with
  | zero => rfl
  | succ k =>
    have : ¬ lo ≤ k := by omega
    simp [forUp, this]

theorem forUp_succ {σ : Type} (lo hi : Nat) (body : Nat → σ → σ) (s : σ) (h : lo ≤ hi) :
    forUp lo (hi + 1) body s = body hi (forUp lo hi body s) := by
  simp [forUp, h]

/-- Loop invariant rule for `forUp`. -/
theorem forUp_inv {σ : Type} (P : Nat → σ → Prop) (lo hi : Nat) (body : Nat → σ → σ)
    (s : σ) (hle : lo ≤ hi) (h0 : P lo s)
    (hstep : ∀ k t, lo ≤ k → k < hi → P k t → P (k + 1) (body k t)) :
    P hi (forUp lo hi body s) := by
  induction hi with
  | zero =>
    have : lo = 0 := by omega
    subst this
    exact h0
  | succ k ih =>
    by_cases hk : lo ≤ k
    · rw [forUp_succ lo k body s hk]
      exact hstep k _ hk (by omega)
        (ih hk (fun j t h1 h2 hp => hstep j t h1 (by omega) hp))
    · have : lo = k + 1 := by omega
      subst this
      rw [forUp_ge _ _ body s (le_refl _)]
      exact h0

/-- A loop none of whose iterations changes the observation `g` leaves it. -/
theorem forUp_frame {σ β : Type} (g : σ → β) (lo hi : Nat) (body : Nat → σ → σ) (s : σ)
    (h : ∀ k t, lo ≤ k → k < hi → g (body k t) = g t) :
    g (forUp lo hi body s) = g s := by
  by_cases hle : lo ≤ hi
  · exact forUp_inv (fun _ t => g t = g s) lo hi body s hle rfl
      (fun k t h1 h2 hp => (h k t h1 h2).trans hp)
  · rw [forUp_ge lo hi body s (by omega)]

/-- If iteration `k0` sets the observation to `c` and no later one changes it,
the loop ends with `c`. -/
theorem forUp_hit {σ β : Type} (g : σ → β) (lo hi : Nat) (body : Nat → σ → σ) (s : σ)
    (c : β) (k0 : Nat) (h1 : lo ≤ k0) (h2 : k0 < hi)
    (hset : ∀ t, g (body k0 t) = c)
    (hkeep : ∀ k t, k0 < k → k < hi → g (body k t) = g t) :
    g (forUp lo hi body s) = c := by
  have key : (fun (k : Nat) (t : σ) => k0 < k → g t = c) hi (forUp lo hi body s) :=
    forUp_inv (fun k t => k0 < k → g t = c) lo hi body s (by omega)
      (fun h => absurd h (by omega))
      (fun k t _ hk hp _ => by
        by_cases e : k = k0
        · subst e; exact hset t
        · rw [hkeep k t (by omega) hk]; exact hp (by omega))
  exact key h2

theorem store_same {β : Type} (b : Nat → β) (k : Nat) (v : β) : store b k v k = v := by
  simp [store]

theorem store_other {β : Type} (b : Nat → β) (k x : Nat) (v : β) (h : x ≠ k) :
    store b k v x = b x := by
  simp [store, h]

/-- Column-major offsets with row index below the leading dimension determine
the column. -/
theorem offset_col {ld i j i2 j2 : Nat} (hi : i < ld) (hi2 : i2 < ld)
    (h : j * ld + i = j2 * ld + i2) : j = j2 := by
  have h1 : (j * ld + i) / ld = j := by
    rw [Nat.mul_comm, Nat.mul_add_div (by omega), Nat.div_eq_of_lt hi, Nat.add_zero]
  have h2 : (j2 * ld + i2) / ld = j2 := by
    rw [Nat.mul_comm, Nat.mul_add_div (by omega), Nat.div_eq_of_lt hi2, Nat.add_zero]
  rw [← h1, ← h2, h]

/-- Nested loop writing, column by column, rows `lo j .. hi j - 1` of a
column-major array of leading dimension `ld`. -/
theorem colFill {σ β : Type} (g : σ → Nat → β) (ld n : Nat) (lo hi : Nat → Nat)
    (f : Nat → Nat → σ → σ) (v : Nat → Nat → β)
    (hf : ∀ j i t, g (f j i t) = store (g t) (j * ld + i) (v j i))
    (hhi : ∀ j, j < n → hi j ≤ ld) (s : σ) (i j : Nat) (hi2 : i < ld) :
    g (forUp 0 n (fun j t => forUp (lo j) (hi j) (f j) t) s) (j * ld + i)
      = if j < n ∧ lo j ≤ i ∧ i < hi j then v j i else g s (j * ld + i) := by
  have keep : ∀ j2 t, j2 < n → (j2 = j → ¬ (lo j ≤ i ∧ i < hi j)) →
      g (forUp (lo j2) (hi j2) (f j2) t) (j * ld + i) = g t (j * ld + i) := by
    intro j2 t hj2 hne
    refine forUp_frame (fun u => g u (j * ld + i)) _ _ _ _ ?_
    intro k u hk1 hk2
    show g (f j2 k u) (j * ld + i) = g u (j * ld + i)
    rw [hf]
    apply store_other
    intro e
    have hk : k < ld := lt_of_lt_of_le hk2 (hhi j2 hj2)
    have e1 : j = j2 := offset_col hi2 hk e
    subst e1
    have : i = k := by omega
    subst this
    exact hne rfl ⟨hk1, hk2⟩
  by_cases hc : j < n ∧ lo j ≤ i ∧ i < hi j
  · rw [if_pos hc]
    refine forUp_hit (fun u => g u (j * ld + i)) 0 n _ s (v j i) j (Nat.zero_le _) hc.1 ?_ ?_
    · intro t
      refine forUp_hit (fun u => g u (j * ld + i)) _ _ _ t (v j i) i hc.2.1 hc.2.2 ?_ ?_
      · intro u
        show g (f j i u) (j * ld + i) = v j i
        rw [hf, store_same]
      · intro k u hk1 _
        show g (f j k u) (j * ld + i) = g u (j * ld + i)
        rw [hf]
        exact store_other _ _ _ _ (by omega)
    · intro k t hk1 hk2
      exact keep k t hk2 (fun e => absurd e (by omega))
  · rw [if_neg hc]
    refine forUp_frame (fun u => g u (j * ld + i)) 0 n _ s ?_
    intro k t _ hk2
    exact keep k t hk2 (fun e h => hc ⟨e ▸ hk2, h⟩)

/-! ## Triangular factor of `qr1.c` -/

theorem usub_one {k : Nat} (h1 : 1 ≤ k) (h2 : k < SIZE_RANGE) : usub k 1 = k - 1 := by
  unfold usub SIZE_RANGE at *
  omega

theorem qrLimit_eq {k : Nat} (h1 : 1 ≤ k) (h2 : k < SIZE_RANGE) (j : Nat) :
    qrLimit k j = min j (k - 1) := by
  unfold qrLimit
  rw [usub_one h1 h2]
  split <;> omega

/-- Nested loops whose innermost body keeps the observation `g` keep it. -/
theorem forUp_frame2 {σ β : Type} (g : σ → β) (n : Nat) (lo hi : Nat → Nat)
    (f : Nat → Nat → σ → σ) (s : σ) (h : ∀ j i t, g (f j i t) = g t) :
    g (forUp 0 n (fun j t => forUp (lo j) (hi j) (f j) t) s) = g s :=
  forUp_frame g 0 n _ s (fun j t _ _ => forUp_frame g (lo j) (hi j) (f j) t
    (fun i u _ _ => h j i u))

theorem qrTriangular_m {α : Type} [Zero α] (classid : ClassID) (cplx econ : Bool)
    (m n : Nat) (Ap : Nat → α) :
    (qrTriangular classid cplx econ m n Ap).m = if econ = true ∧ n < m then n else m := by
  unfold qrTriangular
  dsimp only
  split_ifs
  all_goals exact forUp_frame2 MxArray.m n _ _ _ _ (fun _ _ _ => rfl)

theorem qrTriangular_n {α : Type} [Zero α] (classid : ClassID) (cplx econ : Bool)
    (m n : Nat) (Ap : Nat → α) :
    (qrTriangular classid cplx econ m n Ap).n = n := by
  unfold qrTriangular
  dsimp only
  split_ifs
  all_goals exact forUp_frame2 MxArray.n n _ _ _ _ (fun _ _ _ => rfl)

/-- Inside the output shape the clamp admits exactly the rows `i ≤ j`. -/
theorem qrLimit_row {m n ld i j : Nat} (hm : 1 ≤ m) (hn : 1 ≤ n) (hM : m < SIZE_RANGE)
    (hN : n < SIZE_RANGE) (hld : ld = m ∨ (ld = n ∧ n < m)) (hi : i < ld) (hj : j < n) :
    (i < qrLimit (min m n) j + 1 ↔ i ≤ j) ∧ qrLimit (min m n) j + 1 ≤ ld := by
  have h1 : 1 ≤ min m n := by omega
  have h2 : min m n < SIZE_RANGE := by omega
  rw [qrLimit_eq h1 h2]
  omega

/-- The upper-triangular column loop of `qr1.c` on a zero-filled target. -/
theorem colFill_upper {σ β : Type} [Zero β] (g : σ → Nat → β) (ld n k : Nat)
    (f : Nat → Nat → σ → σ) (v : Nat → Nat → β)
    (hf : ∀ j i t, g (f j i t) = store (g t) (j * ld + i) (v j i))
    (s : σ) (hs : ∀ x, g s x = 0) (hk : ∀ j, j < n → qrLimit k j + 1 ≤ ld)
    (i j : Nat) (hiff : i < qrLimit k j + 1 ↔ i ≤ j) (hi : i < ld) (hj : j < n) :
    g (forUp 0 n (fun j t => forUp 0 (qrLimit k j + 1) (f j) t) s) (j * ld + i)
      = if i ≤ j then v j i else 0 := by
  have key := colFill g ld n (fun _ => 0) (fun j => qrLimit k j + 1) f v hf hk s i j hi
  refine key.trans ?_
  by_cases hij : i ≤ j
  · have h1 : i < qrLimit k j + 1 := hiff.2 hij
    simp only [hj, h1, hij, Nat.zero_le, and_self, if_true]
  · have h1 : ¬ i < qrLimit k j + 1 := fun h => hij (hiff.1 h)
    simp only [h1, hij, and_false, if_false, hs]

theorem qrTriangular_pr {α : Type} [Zero α] (classid : ClassID) (cplx econ : Bool)
    (m n : Nat) (Ap : Nat → α) (hm : 1 ≤ m) (hn : 1 ≤ n) (hM : m < SIZE_RANGE)
    (hN : n < SIZE_RANGE) (i j : Nat)
    (hi : i < (if econ = true ∧ n < m then n else m)) (hj : j < n) :
    (qrTriangular classid cplx econ m n Ap).pr
        (j * (if econ = true ∧ n < m then n else m) + i)
      = if i ≤ j then (if cplx = true then Ap (2*j*m+2*i) else Ap (j*m+i)) else 0 := by
  unfold qrTriangular
  dsimp only
  by_cases h : econ = true ∧ n < m
  · simp only [if_pos h] at hi ⊢
    have hr := qrLimit_row hm hn hM hN (Or.inr ⟨rfl, h.2⟩) hi hj
    have hk : ∀ j, j < n → qrLimit (min m n) j + 1 ≤ n := fun j hj =>
      (qrLimit_row (i := 0) hm hn hM hN (Or.inr ⟨rfl, h.2⟩) hn hj).2
    cases cplx
    · simp only [Bool.false_eq_true, if_false]
      exact colFill_upper MxArray.pr n n (min m n)
        (fun j i (R : MxArray α) => { R with pr := store R.pr (j*n+i) (Ap (j*m+i)) })
        (fun j i => Ap (j*m+i)) (fun _ _ _ => rfl) _ (fun _ => rfl) hk i j hr.1 hi hj
    · simp only [if_true]
      exact colFill_upper MxArray.pr n n (min m n)
        (fun j i (R : MxArray α) => { R with pr := store R.pr (j*n+i) (Ap (2*j*m+2*i)),
                                             pi := store R.pi (j*n+i) (Ap (2*j*m+2*i+1)) })
        (fun j i => Ap (2*j*m+2*i)) (fun _ _ _ => rfl) _ (fun _ => rfl) hk i j hr.1 hi hj
  · simp only [if_neg h] at hi ⊢
    have hr := qrLimit_row hm hn hM hN (Or.inl rfl) hi hj
    have hk : ∀ j, j < n → qrLimit (min m n) j + 1 ≤ m := fun j hj =>
      (qrLimit_row (i := 0) hm hn hM hN (Or.inl rfl) hm hj).2
    cases cplx
    · simp only [Bool.false_eq_true, if_false]
      exact colFill_upper MxArray.pr m n (min m n)
        (fun j i (R : MxArray α) => { R with pr := store R.pr (j*m+i) (Ap (j*m+i)) })
        (fun j i => Ap (j*m+i)) (fun _ _ _ => rfl) _ (fun _ => rfl) hk i j hr.1 hi hj
    · simp only [if_true]
      exact colFill_upper MxArray.pr m n (min m n)
        (fun j i (R : MxArray α) => { R with pr := store R.pr (j*m+i) (Ap (2*j*m+2*i)),
                                             pi := store R.pi (j*m+i) (Ap (2*j*m+2*i+1)) })
        (fun j i => Ap (2*j*m+2*i)) (fun _ _ _ => rfl) _ (fun _ => rfl) hk i j hr.1 hi hj

theorem qrTriangular_pi {α : Type} [Zero α] (classid : ClassID) (cplx econ : Bool)
    (m n : Nat) (Ap : Nat → α) (hm : 1 ≤ m) (hn : 1 ≤ n) (hM : m < SIZE_RANGE)
    (hN : n < SIZE_RANGE) (i j : Nat)
    (hi : i < (if econ = true ∧ n < m then n else m)) (hj : j < n) :
    (qrTriangular classid cplx econ m n Ap).pi
        (j * (if econ = true ∧ n < m then n else m) + i)
      = if i ≤ j ∧ cplx = true then Ap (2*j*m+2*i+1) else 0 := by
  unfold qrTriangular
  dsimp only
  by_cases h : econ = true ∧ n < m
  · simp only [if_pos h] at hi ⊢
    have hr := qrLimit_row hm hn hM hN (Or.inr ⟨rfl, h.2⟩) hi hj
    have hk : ∀ j, j < n → qrLimit (min m n) j + 1 ≤ n := fun j hj =>
      (qrLimit_row (i := 0) hm hn hM hN (Or.inr ⟨rfl, h.2⟩) hn hj).2
    cases cplx
    · simp only [Bool.false_eq_true, if_false, and_false]
      exact congrFun (forUp_frame2 MxArray.pi n (fun _ => 0)
        (fun j => qrLimit (min m n) j + 1)
        (fun j i (R : MxArray α) => { R with pr := store R.pr (j*n+i) (Ap (j*m+i)) })
        (mxCreateNumericMatrix n n classid false) (fun _ _ _ => rfl)) _
    · simp only [if_true, and_true]
      exact colFill_upper MxArray.pi n n (min m n)
        (fun j i (R : MxArray α) => { R with pr := store R.pr (j*n+i) (Ap (2*j*m+2*i)),
                                             pi := store R.pi (j*n+i) (Ap (2*j*m+2*i+1)) })
        (fun j i => Ap (2*j*m+2*i+1)) (fun _ _ _ => rfl) _ (fun _ => rfl) hk i j hr.1 hi hj
  · simp only [if_neg h] at hi ⊢
    have hr := qrLimit_row hm hn hM hN (Or.inl rfl) hi hj
    have hk : ∀ j, j < n → qrLimit (min m n) j + 1 ≤ m := fun j hj =>
      (qrLimit_row (i := 0) hm hn hM hN (Or.inl rfl) hm hj).2
    cases cplx
    · simp only [Bool.false_eq_true, if_false, and_false]
      exact congrFun (forUp_frame2 MxArray.pi n (fun _ => 0)
        (fun j => qrLimit (min m n) j + 1)
        (fun j i (R : MxArray α) => { R with pr := store R.pr (j*m+i) (Ap (j*m+i)) })
        (mxCreateNumericMatrix m n classid false) (fun _ _ _ => rfl)) _
    · simp only [if_true, and_true]
      exact colFill_upper MxArray.pi m n (min m n)
        (fun j i (R : MxArray α) => { R with pr := store R.pr (j*m+i) (Ap (2*j*m+2*i)),
                                             pi := store R.pi (j*m+i) (Ap (2*j*m+2*i+1)) })
        (fun j i => Ap (2*j*m+2*i+1)) (fun _ _ _ => rfl) _ (fun _ => rfl) hk i j hr.1 hi hj

/-- Where a successful run of `qr1.c` leaves the triangular factor. -/
theorem qr_pipeline_triangular_slot {α : Type} [Zero α] [One α] (w : Width)
    (conv : Int → α) (K : Kernel α) (heap : KBuf α) (nlhs : Nat) (A : MxArray α)
    (prhs : List MxOpt) (hm : A.m ≠ 0) (hn : A.n ≠ 0)
    (plhs : Nat → Option (MxArray α))
    (h : (qr_pipeline w conv K heap nlhs A prhs).out = .ok plhs) :
    plhs (if nlhs = 1 then 0 else 1)
      = some (qrTriangular w.classid A.cplx (qrOptions prhs).econ A.m A.n
          (qrFactorize w K heap nlhs A (qrOptions prhs).positive).2.buf.a) := by
  unfold qr_pipeline at h
  simp only [hm, hn, or_self, if_false] at h
  split at h
  · cases h
  · split at h
    · split at h
      · cases h
      · injection h with h
        subst h
        have h1 : nlhs ≠ 1 := by omega
        by_cases h3 : nlhs = 3 <;> simp [h1, h3, store]
    · injection h with h
      subst h
      have h3 : nlhs ≠ 3 := by omega
      by_cases h1 : nlhs = 1 <;> simp [h1, h3, store]

/-! ## Claims -/

/-- C1: for a non-empty input, in every mode and for every kernel, the
triangular output of `qr_double`/`qr_single` (slot 0 when one output is
requested, slot 1 otherwise) has `n` rows when economy is requested and
`m > n` and `m` rows otherwise, and `n` columns; inside that shape entry
`(i,j)` is the scratch entry at column-major offset `j*m+i` left by the
factorize execute call (interleaved real and imaginary parts when complex) when
`i ≤ j` and zero when `i > j`; the clamp never excludes a row `i ≤ j`. -/
theorem C1_qr_triangular_factor {α : Type} [Zero α] [One α] (w : Width)
    (conv : Int → α) (K : Kernel α) (heap : KBuf α) (nlhs : Nat) (A : MxArray α)
    (prhs : List MxOpt) (hm : 1 ≤ A.m) (hn : 1 ≤ A.n)
    (hM : A.m < SIZE_RANGE) (hN : A.n < SIZE_RANGE) :
    let econ := (qrOptions prhs).econ
    let Ap := (qrFactorize w K heap nlhs A (qrOptions prhs).positive).2.buf.a
    let R := qrTriangular w.classid A.cplx econ A.m A.n Ap
    (∀ plhs, (qr_pipeline w conv K heap nlhs A prhs).out = .ok plhs →
        plhs (if nlhs = 1 then 0 else 1) = some R) ∧
    R.m = (if econ = true ∧ A.n < A.m then A.n else A.m) ∧ R.n = A.n ∧
    (∀ i j, i < R.m → j < R.n →
      (i ≤ j → i ≤ qrLimit (min A.m A.n) j) ∧
      R.re i j
        = (if i ≤ j then (if A.cplx = true then Ap (2*(j*A.m+i)) else Ap (j*A.m+i))
           else 0) ∧
      R.im i j = (if i ≤ j ∧ A.cplx = true then Ap (2*(j*A.m+i)+1) else 0)) := by
  intro econ Ap R
  have hRm : R.m = (if econ = true ∧ A.n < A.m then A.n else A.m) :=
    qrTriangular_m _ _ _ _ _ _
  have hRn : R.n = A.n := qrTriangular_n _ _ _ _ _ _
  refine ⟨fun plhs h => qr_pipeline_triangular_slot w conv K heap nlhs A prhs
    (by omega) (by omega) plhs h, hRm, hRn, ?_⟩
  intro i j hi hj
  rw [hRm] at hi
  rw [hRn] at hj
  have hld : (if econ = true ∧ A.n < A.m then A.n else A.m) = A.m ∨
      ((if econ = true ∧ A.n < A.m then A.n else A.m) = A.n ∧ A.n < A.m) := by
    by_cases h : econ = true ∧ A.n < A.m
    · right; rw [if_pos h]; exact ⟨rfl, h.2⟩
    · left; rw [if_neg h]
  refine ⟨fun hij => ?_, ?_, ?_⟩
  · have := (qrLimit_row hm hn hM hN hld hi hj).1.2 hij
    omega
  · have key := qrTriangular_pr w.classid A.cplx econ A.m A.n Ap hm hn hM hN i j hi hj
    have e : 2 * j * A.m + 2 * i = 2 * (j * A.m + i) := by ring
    rw [e] at key
    unfold MxArray.re
    rw [hRm]
    exact key
  · have key := qrTriangular_pi w.classid A.cplx econ A.m A.n Ap hm hn hM hN i j hi hj
    have e : 2 * j * A.m + 2 * i + 1 = 2 * (j * A.m + i) + 1 := by ring
    rw [e] at key
    unfold MxArray.im
    rw [hRm]
    exact key

/-- Witness of C1: economy mode on the 3 x 2 example gives a 2 x 2 factor. -/
theorem C1_qr_triangular_factor_witness :
    (1 ≤ exA32.m ∧ 1 ≤ exA32.n ∧ exA32.m < SIZE_RANGE ∧ exA32.n < SIZE_RANGE) ∧
    (qrTriangular Width.wide.classid exA32.cplx (qrOptions [optZero]).econ exA32.m exA32.n
      (qrFactorize .wide exKernel exHeap 2 exA32 (qrOptions [optZero]).positive).2.buf.a).m
      = 2 :=
  ⟨by decide,
   (C1_qr_triangular_factor .wide id exKernel exHeap 2 exA32 [optZero]
      (by decide) (by decide) (by decide) (by decide)).2.1.trans (by decide)⟩

/-! ## Triangular factor of `lq.c` -/

/-- The lower-triangular column loop of `lq.c` on a zero-filled target. -/
theorem colFill_lower {σ β : Type} [Zero β] (g : σ → Nat → β) (m n : Nat)
    (start : Nat → Nat) (f : Nat → Nat → σ → σ) (v : Nat → Nat → β)
    (hf : ∀ j i t, g (f j i t) = store (g t) (j * m + i) (v j i))
    (s : σ) (hs : ∀ x, g s x = 0)
    (i j : Nat) (hiff : start j ≤ i ↔ j ≤ i) (hi : i < m) (hj : j < n) :
    g (forUp 0 n (fun j t => forUp (start j) m (f j) t) s) (j * m + i)
      = if j ≤ i then v j i else 0 := by
  have key := colFill g m n start (fun _ => m) f v hf (fun _ _ => le_refl m) s i j hi
  refine key.trans ?_
  by_cases hij : j ≤ i
  · have h1 : start j ≤ i := hiff.2 hij
    simp only [hj, h1, hi, hij, and_self, if_true]
  · have h1 : ¬ start j ≤ i := fun h => hij (hiff.1 h)
    simp only [h1, hij, false_and, and_false, if_false, hs]

theorem lqTriangular_m {α : Type} [Zero α] (classid : ClassID) (cplx econ : Bool)
    (m n lda : Nat) (Ap : Nat → α) :
    (lqTriangular classid cplx econ m n lda Ap).m = m := by
  unfold lqTriangular
  dsimp only
  split_ifs
  · exact forUp_frame2 MxArray.m m _ _ _ _ (fun _ _ _ => rfl)
  · exact forUp_frame2 MxArray.m m _ _ _ _ (fun _ _ _ => rfl)
  · exact forUp_frame2 MxArray.m n _ _ _ _ (fun _ _ _ => rfl)
  · exact forUp_frame2 MxArray.m n _ _ _ _ (fun _ _ _ => rfl)

theorem lqTriangular_n {α : Type} [Zero α] (classid : ClassID) (cplx econ : Bool)
    (m n lda : Nat) (Ap : Nat → α) :
    (lqTriangular classid cplx econ m n lda Ap).n = if econ = true ∧ m < n then m else n := by
  unfold lqTriangular
  dsimp only
  split_ifs
  · exact forUp_frame2 MxArray.n m _ _ _ _ (fun _ _ _ => rfl)
  · exact forUp_frame2 MxArray.n m _ _ _ _ (fun _ _ _ => rfl)
  · exact forUp_frame2 MxArray.n n _ _ _ _ (fun _ _ _ => rfl)
  · exact forUp_frame2 MxArray.n n _ _ _ _ (fun _ _ _ => rfl)

theorem lqTriangular_pr {α : Type} [Zero α] (classid : ClassID) (cplx econ : Bool)
    (m n lda : Nat) (Ap : Nat → α) (i j : Nat) (hi : i < m)
    (hj : j < (if econ = true ∧ m < n then m else n)) :
    (lqTriangular classid cplx econ m n lda Ap).pr (j * m + i)
      = if j ≤ i then (if cplx = true then Ap (j*2*lda+2*i) else Ap (j*lda+i)) else 0 := by
  unfold lqTriangular
  dsimp only
  by_cases h : econ = true ∧ m < n
  · simp only [if_pos h] at hj ⊢
    have hs : (if j < m then j else m) ≤ i ↔ j ≤ i := by
      rw [if_pos hj]
    cases cplx
    · simp only [Bool.false_eq_true, if_false]
      exact colFill_lower MxArray.pr m m (fun j => if j < m then j else m)
        (fun j i (L : MxArray α) => { L with pr := store L.pr (j*m+i) (Ap (j*lda+i)) })
        (fun j i => Ap (j*lda+i)) (fun _ _ _ => rfl) _ (fun _ => rfl) i j hs hi hj
    · simp only [if_true]
      exact colFill_lower MxArray.pr m m (fun j => if j < m then j else m)
        (fun j i (L : MxArray α) => { L with pr := store L.pr (j*m+i) (Ap (j*2*lda+2*i)),
                                             pi := store L.pi (j*m+i) (Ap (j*2*lda+2*i+1)) })
        (fun j i => Ap (j*2*lda+2*i)) (fun _ _ _ => rfl) _ (fun _ => rfl) i j hs hi hj
  · simp only [if_neg h] at hj ⊢
    have hs : (if j < min m n then j else min m n) ≤ i ↔ j ≤ i := by
      split <;> omega
    cases cplx
    · simp only [Bool.false_eq_true, if_false]
      exact colFill_lower MxArray.pr m n (fun j => if j < min m n then j else min m n)
        (fun j i (L : MxArray α) => { L with pr := store L.pr (j*m+i) (Ap (j*lda+i)) })
        (fun j i => Ap (j*lda+i)) (fun _ _ _ => rfl) _ (fun _ => rfl) i j hs hi hj
    · simp only [if_true]
      exact colFill_lower MxArray.pr m n (fun j => if j < min m n then j else min m n)
        (fun j i (L : MxArray α) => { L with pr := store L.pr (j*m+i) (Ap (j*2*lda+2*i)),
                                             pi := store L.pi (j*m+i) (Ap (j*2*lda+2*i+1)) })
        (fun j i => Ap (j*2*lda+2*i)) (fun _ _ _ => rfl) _ (fun _ => rfl) i j hs hi hj

theorem lqTriangular_pi {α : Type} [Zero α] (classid : ClassID) (cplx econ : Bool)
    (m n lda : Nat) (Ap : Nat → α) (i j : Nat) (hi : i < m)
    (hj : j < (if econ = true ∧ m < n then m else n)) :
    (lqTriangular classid cplx econ m n lda Ap).pi (j * m + i)
      = if j ≤ i ∧ cplx = true then Ap (j*2*lda+2*i+1) else 0 := by
  unfold lqTriangular
  dsimp only
  by_cases h : econ = true ∧ m < n
  · simp only [if_pos h] at hj ⊢
    have hs : (if j < m then j else m) ≤ i ↔ j ≤ i := by
      rw [if_pos hj]
    cases cplx
    · simp only [Bool.false_eq_true, if_false, and_false]
      exact congrFun (forUp_frame2 MxArray.pi m (fun j => if j < m then j else m)
        (fun _ => m)
        (fun j i (L : MxArray α) => { L with pr := store L.pr (j*m+i) (Ap (j*lda+i)) })
        (mxCreateNumericMatrix m m classid false) (fun _ _ _ => rfl)) _
    · simp only [if_true, and_true]
      exact colFill_lower MxArray.pi m m (fun j => if j < m then j else m)
        (fun j i (L : MxArray α) => { L with pr := store L.pr (j*m+i) (Ap (j*2*lda+2*i)),
                                             pi := store L.pi (j*m+i) (Ap (j*2*lda+2*i+1)) })
        (fun j i => Ap (j*2*lda+2*i+1)) (fun _ _ _ => rfl) _ (fun _ => rfl) i j hs hi hj
  · simp only [if_neg h] at hj ⊢
    have hs : (if j < min m n then j else min m n) ≤ i ↔ j ≤ i := by
      split <;> omega
    cases cplx
    · simp only [Bool.false_eq_true, if_false, and_false]
      exact congrFun (forUp_frame2 MxArray.pi n (fun j => if j < min m n then j else min m n)
        (fun _ => m)
        (fun j i (L : MxArray α) => { L with pr := store L.pr (j*m+i) (Ap (j*lda+i)) })
        (mxCreateNumericMatrix m n classid false) (fun _ _ _ => rfl)) _
    · simp only [if_true, and_true]
      exact colFill_lower MxArray.pi m n (fun j => if j < min m n then j else min m n)
        (fun j i (L : MxArray α) => { L with pr := store L.pr (j*m+i) (Ap (j*2*lda+2*i)),
                                             pi := store L.pi (j*m+i) (Ap (j*2*lda+2*i+1)) })
        (fun j i => Ap (j*2*lda+2*i+1)) (fun _ _ _ => rfl) _ (fun _ => rfl) i j hs hi hj

/-- Where a successful run of `lq.c` leaves the triangular factor. -/
theorem lq_pipeline_triangular_slot {α : Type} [Zero α] [One α] (w : Width)
    (K : Kernel α) (heap : KBuf α) (nlhs : Nat) (A : MxArray α)
    (prhs : List MxOpt) (hm : A.m ≠ 0) (hn : A.n ≠ 0)
    (plhs : Nat → Option (MxArray α))
    (h : (lq_pipeline w K heap nlhs A prhs).out = .ok plhs) :
    plhs 0
      = some (lqTriangular w.classid A.cplx (lqEcon prhs) A.m A.n
          (lqLda (lqEcon prhs) A.m A.n)
          (lqFactorize w K heap A (lqEcon prhs)).2.buf.a) := by
  unfold lq_pipeline at h
  simp only [hm, hn, or_self, if_false] at h
  split at h
  · cases h
  · split at h
    · split at h
      · cases h
      · injection h with h
        subst h
        simp [store]
    · injection h with h
      subst h
      simp [store]

/-- C2: for a non-empty input, in every mode and for every kernel, the
triangular output of `lq_double`/`lq_single` (slot 0) has `m` rows, and `m`
columns when economy is requested and `m < n`, `n` columns otherwise; inside
that shape entry `(i,j)` is the scratch entry at column-major offset `j*lda+i`
left by the factorize execute call, `lda` being the leading dimension of shape
resolution, when `i ≥ j`, and zero when `i < j`; so in full mode on a wide
matrix every column `j ≥ m` is zero. -/
theorem C2_lq_triangular_factor {α : Type} [Zero α] [One α] (w : Width)
    (K : Kernel α) (heap : KBuf α) (nlhs : Nat) (A : MxArray α)
    (prhs : List MxOpt) (hm : 1 ≤ A.m) (hn : 1 ≤ A.n) :
    let econ := lqEcon prhs
    let lda := lqLda econ A.m A.n
    let Ap := (lqFactorize w K heap A econ).2.buf.a
    let L := lqTriangular w.classid A.cplx econ A.m A.n lda Ap
    (∀ plhs, (lq_pipeline w K heap nlhs A prhs).out = .ok plhs → plhs 0 = some L) ∧
    (lq_pipeline w K heap nlhs A prhs).lda = lda ∧
    L.m = A.m ∧ L.n = (if econ = true ∧ A.m < A.n then A.m else A.n) ∧
    (∀ i j, i < L.m → j < L.n →
      L.re i j
        = (if j ≤ i then (if A.cplx = true then Ap (2*(j*lda+i)) else Ap (j*lda+i))
           else 0) ∧
      L.im i j = (if j ≤ i ∧ A.cplx = true then Ap (2*(j*lda+i)+1) else 0)) ∧
    (econ = false → A.m < A.n → ∀ i j, i < A.m → A.m ≤ j → j < A.n →
      L.re i j = 0 ∧ L.im i j = 0) := by
  intro econ lda Ap L
  have hLm : L.m = A.m := lqTriangular_m _ _ _ _ _ _ _
  have hLn : L.n = (if econ = true ∧ A.m < A.n then A.m else A.n) :=
    lqTriangular_n _ _ _ _ _ _ _
  have hent : ∀ i j, i < A.m → j < (if econ = true ∧ A.m < A.n then A.m else A.n) →
      L.re i j
        = (if j ≤ i then (if A.cplx = true then Ap (2*(j*lda+i)) else Ap (j*lda+i))
           else 0) ∧
      L.im i j = (if j ≤ i ∧ A.cplx = true then Ap (2*(j*lda+i)+1) else 0) := by
    intro i j hi hj
    have k1 := lqTriangular_pr w.classid A.cplx econ A.m A.n lda Ap i j hi hj
    have k2 := lqTriangular_pi w.classid A.cplx econ A.m A.n lda Ap i j hi hj
    have e1 : j * 2 * lda + 2 * i = 2 * (j * lda + i) := by ring
    have e2 : j * 2 * lda + 2 * i + 1 = 2 * (j * lda + i) + 1 := by ring
    rw [e1] at k1
    rw [e2] at k2
    unfold MxArray.re MxArray.im
    rw [hLm]
    exact ⟨k1, k2⟩
  refine ⟨fun plhs h => lq_pipeline_triangular_slot w K heap nlhs A prhs
    (by omega) (by omega) plhs h, ?_, hLm, hLn, ?_, ?_⟩
  · unfold lq_pipeline
    have h0 : ¬ (A.m = 0 ∨ A.n = 0) := by omega
    simp only [if_neg h0]
    split_ifs <;> rfl
  · intro i j hi hj
    rw [hLm] at hi
    rw [hLn] at hj
    exact hent i j hi hj
  · intro he _ i j hi hmj hj
    have hj2 : j < (if econ = true ∧ A.m < A.n then A.m else A.n) := by
      rw [if_neg (by simp [he])]
      exact hj
    have := hent i j hi hj2
    have hji : ¬ j ≤ i := by omega
    simpa [hji] using this

/-- Witness of C2: full mode on the 2 x 3 example gives a 2 x 3 factor read with
leading dimension 3 whose last column is zero. -/
theorem C2_lq_triangular_factor_witness :
    (1 ≤ exA23.m ∧ 1 ≤ exA23.n) ∧
    (lqTriangular Width.wide.classid exA23.cplx (lqEcon []) exA23.m exA23.n
      (lqLda (lqEcon []) exA23.m exA23.n)
      (lqFactorize .wide exKernel exHeap exA23 (lqEcon [])).2.buf.a).n = 3 :=
  ⟨by decide,
   (C2_lq_triangular_factor .wide exKernel exHeap 2 exA23 []
      (by decide) (by decide)).2.2.2.1.trans (by decide)⟩

/-! ## Orthogonal factor -/

theorem qr_pipeline_scratch {α : Type} [Zero α] [One α] (w : Width) (conv : Int → α)
    (K : Kernel α) (heap : KBuf α) (nlhs : Nat) (A : MxArray α) (prhs : List MxOpt)
    (hm : A.m ≠ 0) (hn : A.n ≠ 0) :
    (qr_pipeline w conv K heap nlhs A prhs).scratchBytes
        = qrScratchBytes w A.cplx (qrOptions prhs).econ A.m A.n ∧
    (qr_pipeline w conv K heap nlhs A prhs).lda = A.m := by
  unfold qr_pipeline
  have h0 : ¬ (A.m = 0 ∨ A.n = 0) := by omega
  simp only [if_neg h0]
  split_ifs <;> exact ⟨rfl, rfl⟩

theorem qr_pipeline_calls {α : Type} [Zero α] [One α] (w : Width) (conv : Int → α)
    (K : Kernel α) (heap : KBuf α) (nlhs : Nat) (A : MxArray α) (prhs : List MxOpt)
    (hm : A.m ≠ 0) (hn : A.n ≠ 0) :
    (qr_pipeline w conv K heap nlhs A prhs).calls
      = (qrFactorize w K heap nlhs A (qrOptions prhs).positive).1 ++
        (if (qrFactorize w K heap nlhs A (qrOptions prhs).positive).2.info = 0 ∧ 2 ≤ nlhs
         then (qrExpand w K A.cplx (qrOptions prhs).econ A.m A.n
                (qrFactorize w K heap nlhs A (qrOptions prhs).positive).2.buf).1
         else []) := by
  unfold qr_pipeline
  have h0 : ¬ (A.m = 0 ∨ A.n = 0) := by omega
  simp only [if_neg h0]
  by_cases h1 : (qrFactorize w K heap nlhs A (qrOptions prhs).positive).2.info = 0
  · by_cases h2 : 2 ≤ nlhs
    · simp only [h1, h2, ne_eq, not_true_eq_false, if_false, if_true, and_self]
      split_ifs <;> rfl
    · simp only [h1, h2, ne_eq, not_true_eq_false, if_false, and_false, List.append_nil]
  · simp only [h1, ne_eq, not_false_eq_true, if_true, false_and, if_false, List.append_nil]

theorem qr_pipeline_out {α : Type} [Zero α] [One α] (w : Width) (conv : Int → α)
    (K : Kernel α) (heap : KBuf α) (nlhs : Nat) (A : MxArray α) (prhs : List MxOpt)
    (hm : A.m ≠ 0) (hn : A.n ≠ 0) :
    (qr_pipeline w conv K heap nlhs A prhs).out
      = (let o := qrOptions prhs
         let f := qrFactorize w K heap nlhs A o.positive
         let x := qrExpand w K A.cplx o.econ A.m A.n f.2.buf
         let R := qrTriangular w.classid A.cplx o.econ A.m A.n f.2.buf.a
         let p1 := if nlhs = 1 then store noOutputs 0 (some R)
                   else store noOutputs 1 (some R)
         let p2 := if nlhs = 3 then
                     store p1 2 (some (qrPermutation w.classid (fun x => conv (castIndex w x)) o.vector A.n f.2.buf.jp))
                   else p1
         if f.2.info ≠ 0 then .error (qrFactorMsg w (decide (nlhs = 3)) o.positive A.cplx)
         else if 2 ≤ nlhs then
           (if x.2.info ≠ 0 then .error (qrExpandMsg w A.cplx)
            else .ok (store p2 0 (some (qrOrthogonal w.classid A.cplx A.m
                    (if o.econ = true then min A.m A.n else A.m) x.2.buf.a))))
         else .ok p2) := by
  unfold qr_pipeline
  have h0 : ¬ (A.m = 0 ∨ A.n = 0) := by omega
  simp only [if_neg h0, decide_eq_true_eq]
  split_ifs <;> rfl

theorem qrFactorize_calls {α : Type} (w : Width) (K : Kernel α) (heap : KBuf α)
    (nlhs : Nat) (A : MxArray α) (positive : Bool) :
    ∃ lwork : Int, (qrFactorize w K heap nlhs A positive).1
      = [⟨⟨if nlhs = 3 then .geqp3 else if positive = true then .geqrfp else .geqrf,
            A.cplx, w⟩, A.m, A.n, none, A.m, -1⟩,
         ⟨⟨if nlhs = 3 then .geqp3 else if positive = true then .geqrfp else .geqrf,
            A.cplx, w⟩, A.m, A.n, none, A.m, lwork⟩] := by
  unfold qrFactorize
  dsimp only
  by_cases h3 : nlhs = 3 <;> cases positive <;> cases hc : A.cplx <;>
    simp only [h3, decide_True, decide_False, if_true, if_false, Bool.false_eq_true] <;>
    exact ⟨_, rfl⟩

theorem qrExpand_calls {α : Type} (w : Width) (K : Kernel α) (cplx econ : Bool)
    (m n : Nat) (buf : KBuf α) :
    ∃ lwork : Int, (qrExpand w K cplx econ m n buf).1
      = [⟨⟨.orgqr, cplx, w⟩, m, if econ = true then min m n else m, some (min m n), m, -1⟩,
         ⟨⟨.orgqr, cplx, w⟩, m, if econ = true then min m n else m, some (min m n), m,
           lwork⟩] := by
  unfold qrExpand
  dsimp only
  cases cplx <;> simp only [if_true, if_false, Bool.false_eq_true] <;> exact ⟨_, rfl⟩

/-- Where a successful run of `qr1.c` with at least two outputs leaves the
orthogonal factor, and what it implies for the kernel statuses. -/
theorem qr_pipeline_orthogonal_slot {α : Type} [Zero α] [One α] (w : Width)
    (conv : Int → α) (K : Kernel α) (heap : KBuf α) (nlhs : Nat) (A : MxArray α)
    (prhs : List MxOpt) (hm : A.m ≠ 0) (hn : A.n ≠ 0) (h2 : 2 ≤ nlhs)
    (plhs : Nat → Option (MxArray α))
    (h : (qr_pipeline w conv K heap nlhs A prhs).out = .ok plhs) :
    (qrFactorize w K heap nlhs A (qrOptions prhs).positive).2.info = 0 ∧
    plhs 0
      = some (qrOrthogonal w.classid A.cplx A.m
          (if (qrOptions prhs).econ = true then min A.m A.n else A.m)
          (qrExpand w K A.cplx (qrOptions prhs).econ A.m A.n
            (qrFactorize w K heap nlhs A (qrOptions prhs).positive).2.buf).2.buf.a) := by
  rw [qr_pipeline_out w conv K heap nlhs A prhs hm hn] at h
  dsimp only at h
  by_cases h1 : (qrFactorize w K heap nlhs A (qrOptions prhs).positive).2.info = 0
  · refine ⟨h1, ?_⟩
    simp only [h1, ne_eq, not_true_eq_false, if_false, h2, if_true] at h
    split at h
    · cases h
    · injection h with h
      subst h
      exact store_same _ _ _
  · simp only [h1, ne_eq, not_false_eq_true, if_true] at h
    cases h

theorem lq_pipeline_scratch {α : Type} [Zero α] [One α] (w : Width)
    (K : Kernel α) (heap : KBuf α) (nlhs : Nat) (A : MxArray α) (prhs : List MxOpt)
    (hm : A.m ≠ 0) (hn : A.n ≠ 0) :
    (lq_pipeline w K heap nlhs A prhs).scratchBytes
        = lqScratchBytes w A.cplx (lqEcon prhs) A.m A.n ∧
    (lq_pipeline w K heap nlhs A prhs).lda = lqLda (lqEcon prhs) A.m A.n := by
  unfold lq_pipeline
  have h0 : ¬ (A.m = 0 ∨ A.n = 0) := by omega
  simp only [if_neg h0]
  split_ifs <;> exact ⟨rfl, rfl⟩

theorem lq_pipeline_calls {α : Type} [Zero α] [One α] (w : Width)
    (K : Kernel α) (heap : KBuf α) (nlhs : Nat) (A : MxArray α) (prhs : List MxOpt)
    (hm : A.m ≠ 0) (hn : A.n ≠ 0) :
    (lq_pipeline w K heap nlhs A prhs).calls
      = (lqFactorize w K heap A (lqEcon prhs)).1 ++
        (if (lqFactorize w K heap A (lqEcon prhs)).2.info = 0 ∧ nlhs = 2
         then (lqExpand w K A.cplx (lqEcon prhs) A.m A.n (lqLda (lqEcon prhs) A.m A.n)
                (lqFactorize w K heap A (lqEcon prhs)).2.buf).1
         else []) := by
  unfold lq_pipeline
  have h0 : ¬ (A.m = 0 ∨ A.n = 0) := by omega
  simp only [if_neg h0]
  by_cases h1 : (lqFactorize w K heap A (lqEcon prhs)).2.info = 0
  · by_cases h2 : nlhs = 2
    · simp only [h1, h2, ne_eq, not_true_eq_false, if_false, if_true, and_self]
      split_ifs <;> rfl
    · simp only [h1, h2, ne_eq, not_true_eq_false, if_false, and_false, List.append_nil]
  · simp only [h1, ne_eq, not_false_eq_true, if_true, false_and, if_false, List.append_nil]

theorem lq_pipeline_out {α : Type} [Zero α] [One α] (w : Width)
    (K : Kernel α) (heap : KBuf α) (nlhs : Nat) (A : MxArray α) (prhs : List MxOpt)
    (hm : A.m ≠ 0) (hn : A.n ≠ 0) :
    (lq_pipeline w K heap nlhs A prhs).out
      = (let econ := lqEcon prhs
         let lda := lqLda econ A.m A.n
         let f := lqFactorize w K heap A econ
         let x := lqExpand w K A.cplx econ A.m A.n lda f.2.buf
         let L := lqTriangular w.classid A.cplx econ A.m A.n lda f.2.buf.a
         if f.2.info ≠ 0 then .error (lqFactorMsg w A.cplx)
         else if nlhs = 2 then
           (if x.2.info ≠ 0 then .error (lqExpandMsg w A.cplx)
            else .ok (store (store noOutputs 0 (some L)) 1
                    (some (lqOrthogonal w.classid A.cplx
                      (if econ = true then min A.m A.n else A.n) A.n lda x.2.buf.a))))
         else .ok (store noOutputs 0 (some L))) := by
  unfold lq_pipeline
  have h0 : ¬ (A.m = 0 ∨ A.n = 0) := by omega
  simp only [if_neg h0]
  split_ifs <;> rfl

theorem lqFactorize_calls {α : Type} (w : Width) (K : Kernel α) (heap : KBuf α)
    (A : MxArray α) (econ : Bool) :
    ∃ lwork : Int, (lqFactorize w K heap A econ).1
      = [⟨⟨.gelqf, A.cplx, w⟩, A.m, A.n, none, lqLda econ A.m A.n, -1⟩,
         ⟨⟨.gelqf, A.cplx, w⟩, A.m, A.n, none, lqLda econ A.m A.n, lwork⟩] := by
  unfold lqFactorize
  dsimp only
  cases hc : A.cplx <;> simp only [if_true, if_false, Bool.false_eq_true] <;>
    exact ⟨_, rfl⟩

/-- Where a successful run of `lq.c` with two outputs leaves the orthogonal
factor. -/
theorem lq_pipeline_orthogonal_slot {α : Type} [Zero α] [One α] (w : Width)
    (K : Kernel α) (heap : KBuf α) (nlhs : Nat) (A : MxArray α)
    (prhs : List MxOpt) (hm : A.m ≠ 0) (hn : A.n ≠ 0) (h2 : nlhs = 2)
    (plhs : Nat → Option (MxArray α))
    (h : (lq_pipeline w K heap nlhs A prhs).out = .ok plhs) :
    (lqFactorize w K heap A (lqEcon prhs)).2.info = 0 ∧
    plhs 1
      = some (lqOrthogonal w.classid A.cplx
          (if lqEcon prhs = true then min A.m A.n else A.n) A.n
          (lqLda (lqEcon prhs) A.m A.n)
          (lqExpand w K A.cplx (lqEcon prhs) A.m A.n (lqLda (lqEcon prhs) A.m A.n)
            (lqFactorize w K heap A (lqEcon prhs)).2.buf).2.buf.a) := by
  rw [lq_pipeline_out w K heap nlhs A prhs hm hn] at h
  dsimp only at h
  by_cases h1 : (lqFactorize w K heap A (lqEcon prhs)).2.info = 0
  · refine ⟨h1, ?_⟩
    simp only [h1, ne_eq, not_true_eq_false, if_false, h2, if_true] at h
    split at h
    · cases h
    · injection h with h
      subst h
      exact store_same _ _ _
  · simp only [h1, ne_eq, not_false_eq_true, if_true] at h
    cases h

/-- The diagonal loop `Qpr[j*n + j] = 1` of the zero-size branches. -/
theorem eye_pr {α : Type} [One α] (n : Nat) (Q0 : MxArray α) (i j : Nat)
    (hi : i < n) (hj : j < n) :
    (forUp 0 n (fun j (Q : MxArray α) => { Q with pr := store Q.pr (j*n + j) 1 }) Q0).pr
        (j * n + i)
      = if i = j then 1 else Q0.pr (j * n + i) := by
  by_cases hij : i = j
  · subst hij
    rw [if_pos rfl]
    refine forUp_hit (fun (Q : MxArray α) => Q.pr (i * n + i)) 0 n _ Q0 1 i (Nat.zero_le _) hi
      (fun t => store_same _ _ _) ?_
    intro k t hk1 hk2
    refine store_other _ _ _ _ (fun e => ?_)
    have := offset_col hi hk2 e
    omega
  · rw [if_neg hij]
    refine forUp_frame (fun (Q : MxArray α) => Q.pr (j * n + i)) 0 n _ Q0 ?_
    intro k t _ hk2
    refine store_other _ _ _ _ (fun e => ?_)
    have h1 := offset_col hi hk2 e
    subst h1
    omega

theorem eye_rest {α : Type} [One α] (n : Nat) (Q0 : MxArray α) :
    (forUp 0 n (fun j (Q : MxArray α) => { Q with pr := store Q.pr (j*n + j) 1 }) Q0).m = Q0.m ∧
    (forUp 0 n (fun j (Q : MxArray α) => { Q with pr := store Q.pr (j*n + j) 1 }) Q0).n = Q0.n ∧
    (forUp 0 n (fun j (Q : MxArray α) => { Q with pr := store Q.pr (j*n + j) 1 }) Q0).pi = Q0.pi :=
  ⟨forUp_frame MxArray.m 0 n _ Q0 (fun _ _ _ _ => rfl),
   forUp_frame MxArray.n 0 n _ Q0 (fun _ _ _ _ => rfl),
   forUp_frame MxArray.pi 0 n _ Q0 (fun _ _ _ _ => rfl)⟩

/-- The identity matrix property of an output. -/
theorem qrEmpty_spec {α : Type} [Zero α] [One α] (classid : ClassID) (cplx : Bool)
    (nlhs m n : Nat) :
    (∃ T : MxArray α, qrEmpty classid cplx nlhs m n (if nlhs = 1 then 0 else 1) = some T ∧
      T.m = m ∧ T.n = n ∧ T.cplx = cplx ∧ T.classid = classid) ∧
    (nlhs ≠ 1 → ∃ Q : MxArray α, qrEmpty classid cplx nlhs m n 0 = some Q ∧
      Q.m = m ∧ Q.n = m ∧
      ∀ i j, i < m → j < m → Q.re i j = (if i = j then 1 else 0) ∧ Q.im i j = 0) := by
  unfold qrEmpty
  by_cases h1 : nlhs = 1
  · simp only [if_pos h1]
    exact ⟨⟨_, store_same _ _ _, rfl, rfl, rfl, rfl⟩, fun h => absurd h1 h⟩
  · simp only [if_neg h1]
    refine ⟨⟨_, (store_other _ _ _ _ (by decide)).trans (store_same _ _ _),
      rfl, rfl, rfl, rfl⟩, fun _ => ⟨_, store_same _ _ _, ?_⟩⟩
    by_cases hm : m = 0
    · subst hm
      simp only [ne_eq, not_true_eq_false, if_false]
      exact ⟨rfl, rfl, fun i j hi _ => absurd hi (by omega)⟩
    · simp only [ne_eq, hm, not_false_eq_true, if_true]
      have hr := eye_rest m (mxCreateNumericMatrix (α := α) m m classid cplx)
      refine ⟨hr.1, hr.2.1, fun i j hi hj => ?_⟩
      unfold MxArray.re MxArray.im
      rw [hr.1, hr.2.2]
      exact ⟨eye_pr m _ i j hi hj, rfl⟩

theorem lqEmpty_spec {α : Type} [Zero α] [One α] (classid : ClassID) (cplx : Bool)
    (nlhs m n : Nat) :
    (∃ T : MxArray α, lqEmpty classid cplx nlhs m n 0 = some T ∧
      T.m = m ∧ T.n = n ∧ T.cplx = cplx ∧ T.classid = classid) ∧
    (nlhs ≠ 1 → ∃ Q : MxArray α, lqEmpty classid cplx nlhs m n 1 = some Q ∧
      Q.m = n ∧ Q.n = n ∧
      ∀ i j, i < n → j < n → Q.re i j = (if i = j then 1 else 0) ∧ Q.im i j = 0) := by
  unfold lqEmpty
  by_cases h1 : nlhs = 1
  · simp only [if_pos h1]
    exact ⟨⟨_, store_same _ _ _, rfl, rfl, rfl, rfl⟩, fun h => absurd h1 h⟩
  · simp only [if_neg h1]
    refine ⟨⟨_, (store_other _ _ _ _ (by decide)).trans (store_same _ _ _),
      rfl, rfl, rfl, rfl⟩, fun _ => ⟨_, store_same _ _ _, ?_⟩⟩
    by_cases hn : n = 0
    · subst hn
      simp only [ne_eq, not_true_eq_false, if_false]
      exact ⟨rfl, rfl, fun i j hi _ => absurd hi (by omega)⟩
    · simp only [ne_eq, hn, not_false_eq_true, if_true]
      have hr := eye_rest n (mxCreateNumericMatrix (α := α) n n classid cplx)
      refine ⟨hr.1, hr.2.1, fun i j hi hj => ?_⟩
      unfold MxArray.re MxArray.im
      rw [hr.1, hr.2.2]
      exact ⟨eye_pr n _ i j hi hj, rfl⟩

/-- C5: on an input with `m = 0` or `n = 0`, in every mode, width and domain,
neither pipeline invokes a kernel entry; both succeed; the triangular output is
the empty `m x n` matrix; and when two outputs are requested the orthogonal
output is the identity (1 on the diagonal, 0 elsewhere, zero imaginary part) of
size `m x m` for QR and `n x n` for LQ. -/
theorem C5_zero_size_short_circuit {α : Type} [Zero α] [One α] (w : Width)
    (conv : Int → α) (K : Kernel α) (heap : KBuf α) (nlhs : Nat) (A : MxArray α)
    (prhs : List MxOpt) (hz : A.m = 0 ∨ A.n = 0) :
    (qr_pipeline w conv K heap nlhs A prhs).calls = [] ∧
    (lq_pipeline w K heap nlhs A prhs).calls = [] ∧
    (∃ plhs, (qr_pipeline w conv K heap nlhs A prhs).out = .ok plhs ∧
      (∃ T : MxArray α, plhs (if nlhs = 1 then 0 else 1) = some T ∧
        T.m = A.m ∧ T.n = A.n ∧ T.m * T.n = 0 ∧ T.cplx = A.cplx ∧
        T.classid = w.classid) ∧
      (nlhs = 2 → ∃ Q : MxArray α, plhs 0 = some Q ∧ Q.m = A.m ∧ Q.n = A.m ∧
        ∀ i j, i < A.m → j < A.m →
          Q.re i j = (if i = j then 1 else 0) ∧ Q.im i j = 0)) ∧
    (∃ plhs, (lq_pipeline w K heap nlhs A prhs).out = .ok plhs ∧
      (∃ T : MxArray α, plhs 0 = some T ∧
        T.m = A.m ∧ T.n = A.n ∧ T.m * T.n = 0 ∧ T.cplx = A.cplx ∧
        T.classid = w.classid) ∧
      (nlhs = 2 → ∃ Q : MxArray α, plhs 1 = some Q ∧ Q.m = A.n ∧ Q.n = A.n ∧
        ∀ i j, i < A.n → j < A.n →
          Q.re i j = (if i = j then 1 else 0) ∧ Q.im i j = 0)) := by
  have hmn : A.m * A.n = 0 := by
    rcases hz with h | h <;> simp [h]
  have hq : qr_pipeline w conv K heap nlhs A prhs
      = { calls := [], scratchBytes := 0, lda := 0,
          out := .ok (qrEmpty w.classid A.cplx nlhs A.m A.n) } := by
    unfold qr_pipeline
    simp only [if_pos hz]
  have hl : lq_pipeline w K heap nlhs A prhs
      = { calls := [], scratchBytes := 0, lda := 0,
          out := .ok (lqEmpty w.classid A.cplx nlhs A.m A.n) } := by
    unfold lq_pipeline
    simp only [if_pos hz]
  rw [hq, hl]
  have sq := qrEmpty_spec (α := α) w.classid A.cplx nlhs A.m A.n
  have sl := lqEmpty_spec (α := α) w.classid A.cplx nlhs A.m A.n
  refine ⟨rfl, rfl, ⟨_, rfl, ?_, fun h2 => sq.2 (by omega)⟩,
    ⟨_, rfl, ?_, fun h2 => sl.2 (by omega)⟩⟩
  · obtain ⟨T, h1, h2, h3, h4, h5⟩ := sq.1
    exact ⟨T, h1, h2, h3, by rw [h2, h3]; exact hmn, h4, h5⟩
  · obtain ⟨T, h1, h2, h3, h4, h5⟩ := sl.1
    exact ⟨T, h1, h2, h3, by rw [h2, h3]; exact hmn, h4, h5⟩

/-- Witness of C5: the 3 x 0 input makes no kernel call in either pipeline. -/
theorem C5_zero_size_short_circuit_witness :
    (exA30.m = 0 ∨ exA30.n = 0) ∧
    (qr_pipeline .wide id exKernel exHeap 2 exA30 [optZero]).calls = [] ∧
    (lq_pipeline .wide exKernel exHeap 2 exA30 [optZero]).calls = [] :=
  ⟨by decide,
   (C5_zero_size_short_circuit .wide id exKernel exHeap 2 exA30 [optZero] (by decide)).1,
   (C5_zero_size_short_circuit .wide id exKernel exHeap 2 exA30 [optZero] (by decide)).2.1⟩

/-! ## Permutation outputs of `qr1.c` -/

theorem toSizeT_index {n : Nat} {x : Int} (hN : n < SIZE_RANGE) (h1 : 1 ≤ x)
    (h2 : x ≤ n) : toSizeT (x - 1) = (x - 1).toNat ∧ (x - 1).toNat < n := by
  unfold toSizeT
  unfold SIZE_RANGE at *
  have h3 : (x - 1) % ((2 ^ 64 : Nat) : Int) = x - 1 := by
    apply Int.emod_eq_of_lt <;> omega
  rw [h3]
  omega

theorem qrPermutation_vector {α : Type} [Zero α] [One α] (classid : ClassID)
    (conv : Int → α) (n : Nat) (Jp : Nat → Int) :
    (qrPermutation classid conv true n Jp).m = n ∧
    (qrPermutation classid conv true n Jp).n = 1 ∧
    ∀ i, i < n → (qrPermutation classid conv true n Jp).pr i = conv (Jp i) := by
  unfold qrPermutation
  simp only [if_true]
  refine ⟨forUp_frame MxArray.m 0 n _ _ (fun _ _ _ _ => rfl),
    forUp_frame MxArray.n 0 n _ _ (fun _ _ _ _ => rfl), fun i hi => ?_⟩
  refine forUp_hit (fun (E : MxArray α) => E.pr i) 0 n _ _ (conv (Jp i)) i (Nat.zero_le _) hi
    (fun t => store_same _ _ _) ?_
  intro k t hk1 _
  exact store_other _ _ _ _ (by omega)

theorem qrPermutation_matrix {α : Type} [Zero α] [One α] (classid : ClassID)
    (conv : Int → α) (n : Nat) (Jp : Nat → Int) (hN : n < SIZE_RANGE)
    (hJ : ∀ i, i < n → 1 ≤ Jp i ∧ Jp i ≤ n) :
    (qrPermutation classid conv false n Jp).m = n ∧
    (qrPermutation classid conv false n Jp).n = n ∧
    ∀ r i, r < n → i < n →
      (qrPermutation classid conv false n Jp).pr (i * n + r)
        = if r = (Jp i - 1).toNat then 1 else 0 := by
  unfold qrPermutation
  simp only [Bool.false_eq_true, if_false]
  refine ⟨forUp_frame MxArray.m 0 n _ _ (fun _ _ _ _ => rfl),
    forUp_frame MxArray.n 0 n _ _ (fun _ _ _ _ => rfl), fun r i hr hi => ?_⟩
  have hidx : ∀ k, k < n → toSizeT (Jp k - 1) = (Jp k - 1).toNat ∧ (Jp k - 1).toNat < n :=
    fun k hk => toSizeT_index hN (hJ k hk).1 (hJ k hk).2
  by_cases hc : r = (Jp i - 1).toNat
  · rw [if_pos hc]
    refine forUp_hit (fun (E : MxArray α) => E.pr (i * n + r)) 0 n _ _ 1 i (Nat.zero_le _) hi
      ?_ ?_
    · intro t
      show store t.pr (i * n + toSizeT (Jp i - 1)) 1 (i * n + r) = 1
      rw [(hidx i hi).1, ← hc]
      exact store_same _ _ _
    · intro k t hk1 hk2
      refine store_other _ _ _ _ (fun e => ?_)
      rw [(hidx k hk2).1] at e
      have := offset_col hr (hidx k hk2).2 e
      omega
  · rw [if_neg hc]
    refine (forUp_frame (fun (E : MxArray α) => E.pr (i * n + r)) 0 n _ _ ?_).trans ?_
    · intro k t _ hk2
      refine store_other _ _ _ _ (fun e => ?_)
      rw [(hidx k hk2).1] at e
      have h1 := offset_col hr (hidx k hk2).2 e
      subst h1
      omega
    · rfl

/-- An index array with values in `1..n` and no repetition reaches every row. -/
theorem perm_surj {n : Nat} {Jp : Nat → Int} (hJ : ∀ i, i < n → 1 ≤ Jp i ∧ Jp i ≤ n)
    (hinj : ∀ i k, i < n → k < n → Jp i = Jp k → i = k) (r : Nat) (hr : r < n) :
    ∃ i, i < n ∧ (Jp i - 1).toNat = r := by
  have key := Finset.surj_on_of_inj_on_of_card_le
    (s := Finset.range n) (t := Finset.range n)
    (fun a _ => (Jp a - 1).toNat)
    (fun a ha => by
      have := hJ a (Finset.mem_range.1 ha)
      have h3 : (Jp a - 1).toNat < n := by omega
      exact Finset.mem_range.2 h3)
    (fun a b ha hb e => by
      have h1 := hJ a (Finset.mem_range.1 ha)
      have h2 := hJ b (Finset.mem_range.1 hb)
      have e2 : (Jp a - 1).toNat = (Jp b - 1).toNat := e
      exact hinj a b (Finset.mem_range.1 ha) (Finset.mem_range.1 hb) (by omega))
    (le_refl _) r (Finset.mem_range.2 hr)
  obtain ⟨a, ha, e⟩ := key
  exact ⟨a, Finset.mem_range.1 ha, e.symm⟩

theorem roundNearestEven_small (p k : Nat) (h : k < 2 ^ p) : roundNearestEven p k = k := by
  have he : excessBits p 64 k = 0 := by
    show excessBits p (63 + 1) k = 0
    unfold excessBits
    rw [if_pos h]
  unfold roundNearestEven
  simp [he, Nat.mod_one]

/-- A conversion to `float` or `double` is exact up to `2^24` or `2^53`. -/
theorem castIndex_exact (w : Width) (x : Int) (h0 : 0 ≤ x)
    (h : x.toNat ≤ 2 ^ w.sigBits) : castIndex w x = x := by
  unfold castIndex
  rw [if_pos h0]
  have hk : roundNearestEven w.sigBits x.toNat = x.toNat := by
    rcases Nat.lt_or_eq_of_le h with h1 | h1
    · exact roundNearestEven_small _ _ h1
    · rw [h1]
      cases w <;> decide
  rw [hk]
  omega

/-- C6 (amended): for `n` at most `2^53` (double) or `2^24` (single), where the
conversion of an index to the element type is exact, and an index array `J`
that is a permutation of `1..n`: the vector output `e` of pivoted QR is `n x 1`
and `e[i]` is the element holding `J[i]` (read back by `val` as `J[i]`); the
matrix output `P` is `n x n` with a 1 at row `J[i]-1` of column `i` and 0
elsewhere, every row and every column of `P` sums to 1, and for every matrix
`A` over a commutative semiring the `(r,i)` entry `∑ k, A r k * P k i` of `A*P`
is `A r (e[i]-1)`. -/
theorem C6_permutation_outputs_amended {α R : Type} [Zero α] [One α] [CommSemiring R]
    (w : Width) (conv : Int → α) (val : α → Int) (convR : Int → R) (n : Nat)
    (Jp : Nat → Int) (hN : n < SIZE_RANGE) (hn : n ≤ 2 ^ w.sigBits)
    (hval : ∀ x : Int, 1 ≤ x → x ≤ n → val (conv x) = x)
    (hJ : ∀ i, i < n → 1 ≤ Jp i ∧ Jp i ≤ n)
    (hinj : ∀ i k, i < n → k < n → Jp i = Jp k → i = k) :
    let e := qrPermutation w.classid (fun x => conv (castIndex w x)) true n Jp
    let P := qrPermutation w.classid (fun x => convR (castIndex w x)) false n Jp
    (e.m = n ∧ e.n = 1 ∧ ∀ i, i < n → e.pr i = conv (Jp i) ∧ val (e.pr i) = Jp i) ∧
    (P.m = n ∧ P.n = n ∧
      ∀ r i, r < n → i < n → P.re r i = if (r : Int) = Jp i - 1 then 1 else 0) ∧
    (∀ i, i < n → P.re (Jp i - 1).toNat i = 1) ∧
    (∀ r, r < n → ∑ i in Finset.range n, P.re r i = 1) ∧
    (∀ i, i < n → ∑ r in Finset.range n, P.re r i = 1) ∧
    (∀ (A : Nat → Nat → R) (r i : Nat), i < n →
      ∑ k in Finset.range n, A r k * P.re k i = A r (val (e.pr i) - 1).toNat) := by
  intro e P
  have hv := qrPermutation_vector w.classid (fun x => conv (castIndex w x)) n Jp
  have hP := qrPermutation_matrix w.classid (fun x => convR (castIndex w x)) n Jp hN hJ
  have hex : ∀ i, i < n → castIndex w (Jp i) = Jp i := by
    intro i hi
    have := hJ i hi
    exact castIndex_exact w (Jp i) (by omega) (by omega)
  have he : ∀ i, i < n → e.pr i = conv (Jp i) := by
    intro i hi
    have h1 : e.pr i = conv (castIndex w (Jp i)) := hv.2.2 i hi
    rw [h1, hex i hi]
  have hve : ∀ i, i < n → val (e.pr i) = Jp i := by
    intro i hi
    rw [he i hi]
    exact hval (Jp i) (hJ i hi).1 (hJ i hi).2
  have hPe : ∀ r i, r < n → i < n → P.re r i = if r = (Jp i - 1).toNat then 1 else 0 := by
    intro r i hr hi
    unfold MxArray.re
    rw [hP.1]
    exact hP.2.2 r i hr hi
  have hidx : ∀ i, i < n → (Jp i - 1).toNat < n := fun i hi => by
    have := hJ i hi
    omega
  refine ⟨⟨hv.1, hv.2.1, fun i hi => ⟨he i hi, hve i hi⟩⟩,
    ⟨hP.1, hP.2.1, fun r i hr hi => ?_⟩, fun i hi => ?_,
    fun r hr => ?_, fun i hi => ?_, fun A r i hi => ?_⟩
  · rw [hPe r i hr hi]
    have := hJ i hi
    by_cases h : r = (Jp i - 1).toNat
    · rw [if_pos h, if_pos (by omega)]
    · rw [if_neg h, if_neg (by omega)]
  · rw [hPe _ i (hidx i hi) hi, if_pos rfl]
  · obtain ⟨i0, hi0, e0⟩ := perm_surj hJ hinj r hr
    rw [Finset.sum_eq_single_of_mem i0 (Finset.mem_range.2 hi0)]
    · rw [hPe r i0 hr hi0, if_pos e0.symm]
    · intro b hb hne
      have hb2 := Finset.mem_range.1 hb
      rw [hPe r b hr hb2, if_neg]
      intro e1
      have h1 := hJ b hb2
      have h2 := hJ i0 hi0
      exact hne (hinj b i0 hb2 hi0 (by omega))
  · rw [Finset.sum_eq_single_of_mem (Jp i - 1).toNat (Finset.mem_range.2 (hidx i hi))]
    · rw [hPe _ i (hidx i hi) hi, if_pos rfl]
    · intro b hb hne
      rw [hPe b i (Finset.mem_range.1 hb) hi, if_neg hne]
  · rw [hve i hi]
    rw [Finset.sum_eq_single_of_mem (Jp i - 1).toNat (Finset.mem_range.2 (hidx i hi))]
    · rw [hPe _ i (hidx i hi) hi, if_pos rfl, mul_one]
    · intro b hb hne
      rw [hPe b i (Finset.mem_range.1 hb) hi, if_neg hne, mul_zero]

theorem exJ_range : ∀ i, i < 2 → 1 ≤ exJ i ∧ exJ i ≤ (2 : Nat) := by
  intro i hi
  interval_cases i <;> decide

theorem exJ_inj : ∀ i k, i < 2 → k < 2 → exJ i = exJ k → i = k := by
  intro i k hi hk
  interval_cases i <;> interval_cases k <;> decide

/-- Witness of C6 (amended): for the pivots `2, 1` and the double class the
vector output reads back as `2` at index 0, the matrix output has a 1 at row 1
of column 0 and its row 0 sums to 1. -/
theorem C6_permutation_outputs_amended_witness :
    ((2 : Nat) < SIZE_RANGE ∧ 2 ≤ 2 ^ Width.wide.sigBits) ∧
    (qrPermutation ClassID.mxDOUBLE_CLASS (fun x : Int => castIndex .wide x) true 2 exJ).pr 0
      = 2 ∧
    (qrPermutation ClassID.mxDOUBLE_CLASS (fun x : Int => castIndex .wide x) false 2 exJ).re
        (exJ 0 - 1).toNat 0 = 1 ∧
    ∑ i in Finset.range 2,
      (qrPermutation ClassID.mxDOUBLE_CLASS (fun x : Int => castIndex .wide x) false 2 exJ).re
        0 i = 1 :=
  ⟨by decide,
   ((C6_permutation_outputs_amended (R := Int) Width.wide (fun x : Int => x)
      (fun x : Int => x) (fun x : Int => x) 2 exJ (by decide) (by decide)
      (fun _ _ _ => rfl) exJ_range exJ_inj).1.2.2 0 (by decide)).1,
   (C6_permutation_outputs_amended (R := Int) Width.wide (fun x : Int => x)
      (fun x : Int => x) (fun x : Int => x) 2 exJ (by decide) (by decide)
      (fun _ _ _ => rfl) exJ_range exJ_inj).2.2.1 0 (by decide),
   (C6_permutation_outputs_amended (R := Int) Width.wide (fun x : Int => x)
      (fun x : Int => x) (fun x : Int => x) 2 exJ (by decide) (by decide)
      (fun _ _ _ => rfl) exJ_range exJ_inj).2.2.2.1 0 (by decide)⟩

theorem qrPermutation_shape {α : Type} [Zero α] [One α] (classid : ClassID)
    (conv : Int → α) (vector : Bool) (n : Nat) (Jp : Nat → Int) :
    (qrPermutation classid conv vector n Jp).m = n ∧
    (qrPermutation classid conv vector n Jp).n = (if vector = true then 1 else n) := by
  unfold qrPermutation
  cases vector
  · simp only [Bool.false_eq_true, if_false]
    exact ⟨forUp_frame MxArray.m 0 n _ _ (fun _ _ _ _ => rfl),
      forUp_frame MxArray.n 0 n _ _ (fun _ _ _ _ => rfl)⟩
  · simp only [if_true]
    exact ⟨forUp_frame MxArray.m 0 n _ _ (fun _ _ _ _ => rfl),
      forUp_frame MxArray.n 0 n _ _ (fun _ _ _ _ => rfl)⟩

/-- Which output slots a successful run of `qr1.c` on a non-empty input has
assigned, and with what. -/
theorem qr_pipeline_slots {α : Type} [Zero α] [One α] (w : Width)
    (conv : Int → α) (K : Kernel α) (heap : KBuf α) (nlhs : Nat) (A : MxArray α)
    (prhs : List MxOpt) (hm : A.m ≠ 0) (hn : A.n ≠ 0)
    (plhs : Nat → Option (MxArray α))
    (h : (qr_pipeline w conv K heap nlhs A prhs).out = .ok plhs) :
    (nlhs = 3 → plhs 2 = some (qrPermutation w.classid (fun x => conv (castIndex w x)) (qrOptions prhs).vector A.n
        (qrFactorize w K heap nlhs A (qrOptions prhs).positive).2.buf.jp)) ∧
    (nlhs ≠ 3 → plhs 2 = none) ∧
    (nlhs < 2 → plhs (if nlhs = 1 then 1 else 0) = none) ∧
    (∀ k, 3 ≤ k → plhs k = none) := by
  rw [qr_pipeline_out w conv K heap nlhs A prhs hm hn] at h
  dsimp only at h
  split at h
  · cases h
  · split at h
    · split at h
      · cases h
      · injection h with h
        subst h
        have h1 : nlhs ≠ 1 := by omega
        refine ⟨fun h3 => ?_, fun h3 => ?_, fun hlt => absurd hlt (by omega), fun k hk => ?_⟩
        · simp [h1, h3, store]
        · simp [h1, h3, store, noOutputs]
        · have e0 : k ≠ 0 := by omega
          have e1 : k ≠ 1 := by omega
          have e2 : k ≠ 2 := by omega
          by_cases h3 : nlhs = 3 <;> simp [h1, h3, store, noOutputs, e0, e1, e2]
    · injection h with h
      subst h
      have h3 : nlhs ≠ 3 := by omega
      refine ⟨fun h => absurd h h3, fun _ => ?_, fun _ => ?_, fun k hk => ?_⟩
      · by_cases h1 : nlhs = 1 <;> simp [h1, h3, store, noOutputs]
      · by_cases h1 : nlhs = 1 <;> simp [h1, h3, store, noOutputs]
      · have e0 : k ≠ 0 := by omega
        have e1 : k ≠ 1 := by omega
        by_cases h1 : nlhs = 1 <;> simp [h1, h3, store, noOutputs, e0, e1]

/-- A run of `qr1.c` on a non-empty input succeeds exactly when the execute
calls it makes return status zero. -/
theorem qr_pipeline_ok_iff {α : Type} [Zero α] [One α] (w : Width)
    (conv : Int → α) (K : Kernel α) (heap : KBuf α) (nlhs : Nat) (A : MxArray α)
    (prhs : List MxOpt) (hm : A.m ≠ 0) (hn : A.n ≠ 0) :
    (∃ plhs, (qr_pipeline w conv K heap nlhs A prhs).out = .ok plhs) ↔
    ((qrFactorize w K heap nlhs A (qrOptions prhs).positive).2.info = 0 ∧
     (2 ≤ nlhs → (qrExpand w K A.cplx (qrOptions prhs).econ A.m A.n
        (qrFactorize w K heap nlhs A (qrOptions prhs).positive).2.buf).2.info = 0)) := by
  rw [qr_pipeline_out w conv K heap nlhs A prhs hm hn]
  dsimp only
  by_cases h1 : (qrFactorize w K heap nlhs A (qrOptions prhs).positive).2.info = 0
  · by_cases h2 : 2 ≤ nlhs
    · by_cases h3 : (qrExpand w K A.cplx (qrOptions prhs).econ A.m A.n
        (qrFactorize w K heap nlhs A (qrOptions prhs).positive).2.buf).2.info = 0
      · simp only [h1, h2, h3, ne_eq, not_true_eq_false, if_false, if_true, and_self,
          forall_const, iff_true]
        exact ⟨_, rfl⟩
      · simp only [h1, h2, h3, ne_eq, not_true_eq_false, not_false_eq_true, if_false,
          if_true, and_false, forall_const, iff_false]
        rintro ⟨p, hp⟩
        cases hp
    · simp only [h1, h2, ne_eq, not_true_eq_false, if_false, true_and, false_imp_iff,
        iff_true]
      exact ⟨_, rfl⟩
  · simp only [h1, ne_eq, not_false_eq_true, if_true, false_and, iff_false]
    rintro ⟨p, hp⟩
    cases hp

/-- C6 (counterexample): `qr_single` with three outputs and `'vector'` on a real
single `1 x 16777217` input, with a kernel that reports the pivots `1, 2, 3,
...` (a permutation of `1..n`), returns a third output `e` whose entry 16777216
is `16777216` where `J` has `16777217`, equal to the entry before it. -/
theorem C6_permutation_outputs_counterexample :
    (∀ i, i < 16777217 → 1 ≤ exJid i ∧ exJid i ≤ ((16777217 : Nat) : Int)) ∧
    (∀ i k, i < 16777217 → k < 16777217 → exJid i = exJid k → i = k) ∧
    ∃ plhs e,
      (qr_single (fun x : Int => x) exKernelNoPivot exHeap 3 exRow24 [optVector]).out
        = .ok plhs ∧
      plhs 2 = some e ∧ e.m = 16777217 ∧ e.n = 1 ∧
      exJid 16777216 = 16777217 ∧ e.pr 16777216 = 16777216 ∧
      e.pr 16777215 = e.pr 16777216 := by
  refine ⟨fun i hi => ?_, fun i k _ _ h => ?_, ?_⟩
  · unfold exJid
    omega
  · unfold exJid at h
    omega
  · obtain ⟨plhs, hp⟩ := (qr_pipeline_ok_iff .narrow (fun x : Int => x) exKernelNoPivot
      exHeap 3 exRow24 [optVector] (by decide) (by decide)).2 ⟨by decide, fun _ => by decide⟩
    have hs := (qr_pipeline_slots .narrow (fun x : Int => x) exKernelNoPivot exHeap 3
      exRow24 [optVector] (by decide) (by decide) plhs hp).1 rfl
    have hs2 : plhs 2 = some (qrPermutation ClassID.mxSINGLE_CLASS
        (fun x => castIndex .narrow x) true 16777217 exJid) := hs
    have hv := qrPermutation_vector ClassID.mxSINGLE_CLASS
      (fun x => castIndex .narrow x) 16777217 exJid
    refine ⟨plhs, _, hp, hs2, hv.1, hv.2.1, by decide, ?_, ?_⟩
    · rw [hv.2.2 16777216 (by decide)]
      decide
    · rw [hv.2.2 16777216 (by decide), hv.2.2 16777215 (by decide)]
      decide

/-! ## Option decoding of `qr1.c` -/

theorem qrOptions_vector_iff (prhs : List MxOpt) :
    (qrOptions prhs).vector = true ↔
      ∃ p1 rest, prhs = p1 :: rest ∧
        ((p1.isChar = true ∧ p1.str = "vector") ∨ (p1.isChar = false ∧ p1.scalar = 0)) := by
  cases prhs with
  | nil => simp [qrOptions]
  | cons p1 rest =>
    unfold qrOptions
    cases hc : p1.isChar <;> simp [hc]

theorem qrOptions_econ_iff (prhs : List MxOpt) :
    (qrOptions prhs).econ = true ↔
      ∃ p1 rest, prhs = p1 :: rest ∧ p1.isChar = false ∧ p1.scalar = 0 := by
  cases prhs with
  | nil => simp [qrOptions]
  | cons p1 rest =>
    unfold qrOptions
    cases hc : p1.isChar <;> simp [hc]

/-- C7 (counterexample): `[Q,R,e] = qr1(A,0)` on the 3 x 2 example, whose second
argument is numeric and not the string `'vector'`, succeeds and returns the
permutation as the 2 x 1 index vector `2, 1`, not as a 2 x 2 matrix. -/
theorem C7_matrix_default_counterexample :
    optZero.isChar = false ∧ exA32.m = 3 ∧ exA32.n = 2 ∧
    ∃ plhs E, (qr_pipeline .wide (fun x : Int => x) exKernel exHeap 3 exA32 [optZero]).out
        = .ok plhs ∧
      plhs 2 = some E ∧ E.m = 2 ∧ E.n = 1 ∧ E.n ≠ exA32.n ∧ E.pr 0 = 2 ∧ E.pr 1 = 1 := by
  refine ⟨rfl, rfl, rfl, ?_⟩
  obtain ⟨plhs, hp⟩ := (qr_pipeline_ok_iff .wide (fun x : Int => x) exKernel exHeap 3 exA32
    [optZero] (by decide) (by decide)).2 ⟨by decide, fun _ => by decide⟩
  have hs := (qr_pipeline_slots .wide (fun x : Int => x) exKernel exHeap 3 exA32 [optZero]
    (by decide) (by decide) plhs hp).1 rfl
  exact ⟨plhs, _, hp, hs, by decide, by decide, by decide, by decide, by decide⟩

/-- C7 (amended): on a non-empty input a successful 3-output call returns as
third output the `n x n` 0/1 permutation matrix when the vector form is not
selected, that is when the second argument is absent, or is a string other than
`'vector'`, or is a non-string with non-zero scalar value; when the second
argument is the string `'vector'` or a non-string with scalar value 0 (the
economy request) the third output is the `n x 1` index vector. -/
theorem C7_matrix_default_amended {α : Type} [Zero α] [One α] (w : Width)
    (conv : Int → α) (K : Kernel α) (heap : KBuf α) (A : MxArray α)
    (prhs : List MxOpt) (hm : A.m ≠ 0) (hn : A.n ≠ 0)
    (plhs : Nat → Option (MxArray α))
    (h : (qr_pipeline w conv K heap 3 A prhs).out = .ok plhs) :
    let Jp := (qrFactorize w K heap 3 A (qrOptions prhs).positive).2.buf.jp
    let sel := ∃ p1 rest, prhs = p1 :: rest ∧
        ((p1.isChar = true ∧ p1.str = "vector") ∨ (p1.isChar = false ∧ p1.scalar = 0))
    (¬ sel → plhs 2 = some (qrPermutation w.classid (fun x => conv (castIndex w x)) false A.n Jp) ∧
      (qrPermutation w.classid (fun x => conv (castIndex w x)) false A.n Jp).m = A.n ∧
      (qrPermutation w.classid (fun x => conv (castIndex w x)) false A.n Jp).n = A.n) ∧
    (sel → plhs 2 = some (qrPermutation w.classid (fun x => conv (castIndex w x)) true A.n Jp) ∧
      (qrPermutation w.classid (fun x => conv (castIndex w x)) true A.n Jp).m = A.n ∧
      (qrPermutation w.classid (fun x => conv (castIndex w x)) true A.n Jp).n = 1) := by
  intro Jp sel
  have hs := (qr_pipeline_slots w conv K heap 3 A prhs hm hn plhs h).1 rfl
  have hv := qrOptions_vector_iff prhs
  constructor
  · intro hsel
    have hf : (qrOptions prhs).vector = false := by
      cases hb : (qrOptions prhs).vector
      · rfl
      · exact absurd (hv.1 hb) hsel
    rw [hf] at hs
    exact ⟨hs, (qrPermutation_shape w.classid (fun x => conv (castIndex w x)) false A.n Jp).1,
      (qrPermutation_shape w.classid (fun x => conv (castIndex w x)) false A.n Jp).2⟩
  · intro hsel
    rw [hv.2 hsel] at hs
    exact ⟨hs, (qrPermutation_shape w.classid (fun x => conv (castIndex w x)) true A.n Jp).1,
      (qrPermutation_shape w.classid (fun x => conv (castIndex w x)) true A.n Jp).2⟩

/-- Witness of C7: `[Q,R,E] = qr1(A)` on the 3 x 2 example returns the 2 x 2
permutation matrix. -/
theorem C7_matrix_default_amended_witness :
    ∃ plhs, (qr_pipeline .wide (fun x : Int => x) exKernel exHeap 3 exA32 []).out = .ok plhs ∧
      plhs 2 = some (qrPermutation Width.wide.classid (fun x : Int => x) false exA32.n
        (qrFactorize .wide exKernel exHeap 3 exA32 (qrOptions []).positive).2.buf.jp) := by
  obtain ⟨plhs, hp⟩ := (qr_pipeline_ok_iff .wide (fun x : Int => x) exKernel exHeap 3 exA32
    [] (by decide) (by decide)).2 ⟨by decide, fun _ => by decide⟩
  exact ⟨plhs, hp, ((C7_matrix_default_amended .wide (fun x : Int => x) exKernel exHeap exA32
    [] (by decide) (by decide) plhs hp).1 (by simp)).1⟩

/-! ## Kernel statuses -/

/-- The status `qr1.c` examines after factorizing is the one of the execute
call, the second of the two calls made. -/
theorem qrFactorize_exec {α : Type} (w : Width) (K : Kernel α) (heap : KBuf α)
    (nlhs : Nat) (A : MxArray α) (positive : Bool) :
    ∃ q e b0, (qrFactorize w K heap nlhs A positive).1 = [q, e] ∧ q.lwork = -1 ∧
      e.lwork = (K 0 q b0).work0 ∧ e.routine = q.routine ∧
      (qrFactorize w K heap nlhs A positive).2 = K 1 e (K 0 q b0).buf := by
  unfold qrFactorize
  dsimp only
  by_cases h3 : nlhs = 3 <;> cases positive <;> cases hc : A.cplx <;>
    simp only [h3, decide_True, decide_False, if_true, if_false, Bool.false_eq_true] <;>
    exact ⟨_, _, _, rfl, rfl, rfl, rfl, rfl⟩

theorem qrExpand_exec {α : Type} (w : Width) (K : Kernel α) (cplx econ : Bool)
    (m n : Nat) (buf : KBuf α) :
    ∃ q e, (qrExpand w K cplx econ m n buf).1 = [q, e] ∧ q.lwork = -1 ∧
      e.lwork = (K 2 q buf).work0 ∧ e.routine = q.routine ∧
      (qrExpand w K cplx econ m n buf).2 = K 3 e (K 2 q buf).buf := by
  unfold qrExpand
  dsimp only
  cases cplx <;> simp only [if_true, if_false, Bool.false_eq_true] <;>
    exact ⟨_, _, rfl, rfl, rfl, rfl, rfl⟩

theorem lqFactorize_exec {α : Type} (w : Width) (K : Kernel α) (heap : KBuf α)
    (A : MxArray α) (econ : Bool) :
    ∃ q e b0, (lqFactorize w K heap A econ).1 = [q, e] ∧ q.lwork = -1 ∧
      e.lwork = (K 0 q b0).work0 ∧ e.routine = q.routine ∧
      (lqFactorize w K heap A econ).2 = K 1 e (K 0 q b0).buf := by
  unfold lqFactorize
  dsimp only
  cases hc : A.cplx <;> simp only [if_true, if_false, Bool.false_eq_true] <;>
    exact ⟨_, _, _, rfl, rfl, rfl, rfl, rfl⟩

theorem lqExpand_exec {α : Type} (w : Width) (K : Kernel α) (cplx econ : Bool)
    (m n lda : Nat) (buf : KBuf α) :
    ∃ q e, (lqExpand w K cplx econ m n lda buf).1 = [q, e] ∧ q.lwork = -1 ∧
      e.lwork = (K 2 q buf).work0 ∧ e.routine = q.routine ∧
      (lqExpand w K cplx econ m n lda buf).2 = K 3 e (K 2 q buf).buf := by
  unfold lqExpand
  dsimp only
  cases cplx <;> simp only [if_true, if_false, Bool.false_eq_true] <;>
    exact ⟨_, _, rfl, rfl, rfl, rfl, rfl⟩

/-- A run of `lq.c` on a non-empty input succeeds exactly when the execute
calls it makes return status zero. -/
theorem lq_pipeline_ok_iff {α : Type} [Zero α] [One α] (w : Width)
    (K : Kernel α) (heap : KBuf α) (nlhs : Nat) (A : MxArray α)
    (prhs : List MxOpt) (hm : A.m ≠ 0) (hn : A.n ≠ 0) :
    (∃ plhs, (lq_pipeline w K heap nlhs A prhs).out = .ok plhs) ↔
    ((lqFactorize w K heap A (lqEcon prhs)).2.info = 0 ∧
     (nlhs = 2 → (lqExpand w K A.cplx (lqEcon prhs) A.m A.n (lqLda (lqEcon prhs) A.m A.n)
        (lqFactorize w K heap A (lqEcon prhs)).2.buf).2.info = 0)) := by
  rw [lq_pipeline_out w K heap nlhs A prhs hm hn]
  dsimp only
  by_cases h1 : (lqFactorize w K heap A (lqEcon prhs)).2.info = 0
  · by_cases h2 : nlhs = 2
    · by_cases h3 : (lqExpand w K A.cplx (lqEcon prhs) A.m A.n (lqLda (lqEcon prhs) A.m A.n)
        (lqFactorize w K heap A (lqEcon prhs)).2.buf).2.info = 0
      · simp only [h1, h2, h3, ne_eq, not_true_eq_false, if_false, if_true, and_self,
          forall_const, iff_true]
        exact ⟨_, rfl⟩
      · simp only [h1, h2, h3, ne_eq, not_true_eq_false, not_false_eq_true, if_false,
          if_true, and_false, forall_const, iff_false]
        rintro ⟨p, hp⟩
        cases hp
    · simp only [h1, h2, ne_eq, not_true_eq_false, if_false, true_and, false_imp_iff,
        iff_true]
      exact ⟨_, rfl⟩
  · simp only [h1, ne_eq, not_false_eq_true, if_true, false_and, iff_false]
    rintro ⟨p, hp⟩
    cases hp

/-- C8 (counterexample): with a kernel whose workspace queries return status 1
and whose execute calls return 0, `[Q,R] = qr1(A)` on the 3 x 2 example makes
four kernel calls, the first of which is a query that returns a non-zero
status, and still succeeds with both result matrices. -/
theorem C8_kernel_status_counterexample :
    ∃ plhs,
      (qr_pipeline .wide (fun x : Int => x) exKernelQueryFails exHeap 2 exA32 []).calls
        = [⟨⟨.geqrf, false, .wide⟩, 3, 2, none, 3, -1⟩,
           ⟨⟨.geqrf, false, .wide⟩, 3, 2, none, 3, 8⟩,
           ⟨⟨.orgqr, false, .wide⟩, 3, 3, some 2, 3, -1⟩,
           ⟨⟨.orgqr, false, .wide⟩, 3, 3, some 2, 3, 8⟩] ∧
      (∀ idx b, (exKernelQueryFails idx ⟨⟨.geqrf, false, .wide⟩, 3, 2, none, 3, -1⟩ b).info
        = 1) ∧
      (qr_pipeline .wide (fun x : Int => x) exKernelQueryFails exHeap 2 exA32 []).out
        = .ok plhs ∧
      (plhs 0).isSome = true ∧ (plhs 1).isSome = true := by
  obtain ⟨plhs, hp⟩ := (qr_pipeline_ok_iff .wide (fun x : Int => x) exKernelQueryFails
    exHeap 2 exA32 [] (by decide) (by decide)).2 ⟨by decide, fun _ => by decide⟩
  have h0 := (qr_pipeline_orthogonal_slot .wide (fun x : Int => x) exKernelQueryFails
    exHeap 2 exA32 [] (by decide) (by decide) (by decide) plhs hp).2
  have h1 := qr_pipeline_triangular_slot .wide (fun x : Int => x) exKernelQueryFails
    exHeap 2 exA32 [] (by decide) (by decide) plhs hp
  refine ⟨plhs, by decide, fun _ _ => rfl, hp, ?_, ?_⟩
  · rw [h0]; rfl
  · have h2 : plhs 1 = _ := h1
    rw [h2]; rfl

/-- C8 (amended): on a non-empty input the status each pipeline examines is the
one returned by the execute call of the factorize entry and, when the
orthogonal factor is requested, by the execute call of the expansion entry; if
either is non-zero the run ends with the kernel-failure error and no result
matrices, and the run succeeds exactly when every execute call it makes returns
zero.  The status of a workspace-query call is not examined. -/
theorem C8_kernel_status_amended {α : Type} [Zero α] [One α] (w : Width)
    (conv : Int → α) (K : Kernel α) (heap : KBuf α) (nlhs : Nat) (A : MxArray α)
    (prhs : List MxOpt) (hm : A.m ≠ 0) (hn : A.n ≠ 0) :
    let o := qrOptions prhs
    let f := qrFactorize w K heap nlhs A o.positive
    let x := qrExpand w K A.cplx o.econ A.m A.n f.2.buf
    let qr := qr_pipeline w conv K heap nlhs A prhs
    let econ := lqEcon prhs
    let lf := lqFactorize w K heap A econ
    let lx := lqExpand w K A.cplx econ A.m A.n (lqLda econ A.m A.n) lf.2.buf
    let lq := lq_pipeline w K heap nlhs A prhs
    (∃ q e b0, f.1 = [q, e] ∧ q.lwork = -1 ∧ f.2 = K 1 e (K 0 q b0).buf) ∧
    (∃ q e, x.1 = [q, e] ∧ q.lwork = -1 ∧ x.2 = K 3 e (K 2 q f.2.buf).buf) ∧
    (f.2.info ≠ 0 → qr.out = .error (qrFactorMsg w (decide (nlhs = 3)) o.positive A.cplx)) ∧
    (f.2.info = 0 → 2 ≤ nlhs → x.2.info ≠ 0 → qr.out = .error (qrExpandMsg w A.cplx)) ∧
    ((∃ plhs, qr.out = .ok plhs) ↔ (f.2.info = 0 ∧ (2 ≤ nlhs → x.2.info = 0))) ∧
    (∃ q e b0, lf.1 = [q, e] ∧ q.lwork = -1 ∧ lf.2 = K 1 e (K 0 q b0).buf) ∧
    (∃ q e, lx.1 = [q, e] ∧ q.lwork = -1 ∧ lx.2 = K 3 e (K 2 q lf.2.buf).buf) ∧
    (lf.2.info ≠ 0 → lq.out = .error (lqFactorMsg w A.cplx)) ∧
    (lf.2.info = 0 → nlhs = 2 → lx.2.info ≠ 0 → lq.out = .error (lqExpandMsg w A.cplx)) ∧
    ((∃ plhs, lq.out = .ok plhs) ↔ (lf.2.info = 0 ∧ (nlhs = 2 → lx.2.info = 0))) := by
  intro o f x qr econ lf lx lq
  have hqo := qr_pipeline_out w conv K heap nlhs A prhs hm hn
  have hlo := lq_pipeline_out w K heap nlhs A prhs hm hn
  dsimp only at hqo hlo
  refine ⟨?_, ?_, ?_, ?_, qr_pipeline_ok_iff w conv K heap nlhs A prhs hm hn,
    ?_, ?_, ?_, ?_, lq_pipeline_ok_iff w K heap nlhs A prhs hm hn⟩
  · obtain ⟨q, e, b0, h1, h2, _, _, h5⟩ := qrFactorize_exec w K heap nlhs A o.positive
    exact ⟨q, e, b0, h1, h2, h5⟩
  · obtain ⟨q, e, h1, h2, _, _, h5⟩ := qrExpand_exec w K A.cplx o.econ A.m A.n f.2.buf
    exact ⟨q, e, h1, h2, h5⟩
  · intro h
    show (qr_pipeline w conv K heap nlhs A prhs).out = _
    rw [hqo, if_pos h]
  · intro h1 h2 h3
    show (qr_pipeline w conv K heap nlhs A prhs).out = _
    rw [hqo, if_neg (not_not.2 h1), if_pos h2, if_pos h3]
  · obtain ⟨q, e, b0, h1, h2, _, _, h5⟩ := lqFactorize_exec w K heap A econ
    exact ⟨q, e, b0, h1, h2, h5⟩
  · obtain ⟨q, e, h1, h2, _, _, h5⟩ :=
      lqExpand_exec w K A.cplx econ A.m A.n (lqLda econ A.m A.n) lf.2.buf
    exact ⟨q, e, h1, h2, h5⟩
  · intro h
    show (lq_pipeline w K heap nlhs A prhs).out = _
    rw [hlo, if_pos h]
  · intro h1 h2 h3
    show (lq_pipeline w K heap nlhs A prhs).out = _
    rw [hlo, if_neg (not_not.2 h1), if_pos h2, if_pos h3]

/-- Witness of C8: when the expansion execute call returns status 3 the run on
the 3 x 2 example ends with the expansion error. -/
theorem C8_kernel_status_amended_witness :
    (exA32.m ≠ 0 ∧ exA32.n ≠ 0) ∧
    (qr_pipeline .wide (fun x : Int => x) exKernelExpandFails exHeap 2 exA32 []).out
      = .error "DORGQR not successful" :=
  ⟨by decide,
   (C8_kernel_status_amended .wide (fun x : Int => x) exKernelExpandFails exHeap 2 exA32 []
      (by decide) (by decide)).2.2.2.1 (by decide) (by decide) (by decide)⟩

/-! ## Error messages -/

/-- The routine the factorize stage of `qr1.c` invokes. -/
theorem qrFactorMsg_names (w : Width) (perm positive cplx : Bool) :
    qrFactorMsg w perm positive cplx
      = (Routine.mk (if perm = true then .geqp3 else if positive = true then .geqrfp
          else .geqrf) cplx w).name ++ " not successful" := by
  cases w <;> cases perm <;> cases positive <;> cases cplx <;> decide

theorem lqFactorMsg_names (w : Width) (cplx : Bool) :
    lqFactorMsg w cplx = (Routine.mk .gelqf cplx w).name ++ " not successful" := by
  cases w <;> cases cplx <;> decide

theorem lqExpandMsg_names (w : Width) (cplx : Bool) :
    lqExpandMsg w cplx = (Routine.mk .orglq cplx w).name ++ " not successful" := by
  cases w <;> cases cplx <;> decide

theorem qrExpandMsg_names (w : Width) (cplx : Bool) (h : ¬ (w = .wide ∧ cplx = true)) :
    qrExpandMsg w cplx = (Routine.mk .orgqr cplx w).name ++ " not successful" := by
  cases w <;> cases cplx <;> first | decide | exact absurd ⟨rfl, rfl⟩ h

/-- C9 (failing input): for the complex double 3 x 2 example with two outputs
and a kernel whose expansion execute call fails, the calls made are to `ZGEQRF`
and `ZUNGQR`, and the run ends with the message `DUNGQR not successful`, which
does not name the failing routine `ZUNGQR`. -/
theorem C9_error_names_entry_failing_input :
    (qr_double (fun x : Int => x) exKernelExpandFails exHeap 2 exZ32 []).calls.map
        (fun c => c.routine.name) = ["ZGEQRF", "ZGEQRF", "ZUNGQR", "ZUNGQR"] ∧
    (qr_double (fun x : Int => x) exKernelExpandFails exHeap 2 exZ32 []).out
      = .error "DUNGQR not successful" ∧
    "DUNGQR not successful" ≠ (Routine.mk .orgqr true .wide).name ++ " not successful" := by
  refine ⟨by decide, ?_, by decide⟩
  exact (qr_pipeline_out .wide (fun x : Int => x) exKernelExpandFails exHeap 2 exZ32 []
    (by decide) (by decide)).trans (by
      dsimp only
      rw [if_neg (by decide), if_pos (by decide), if_pos (by decide)]
      rfl)

/-! ## Choice of the factorize entry in `qr1.c` -/

/-- C10: on a non-empty input the first two kernel calls of
`qr_double`/`qr_single` are the workspace query and the execute call of one and
the same factorize routine, which is the pivoted entry if and only if exactly 3
outputs are requested; every later call is an expansion call.  With 3 outputs
the positive-diagonal entry is never called, whatever the options; with another
number of outputs the pivoted entry is never called; and a successful run
assigns the permutation slot if and only if 3 outputs are requested. -/
theorem C10_three_outputs_select_pivoted {α : Type} [Zero α] [One α] (w : Width)
    (conv : Int → α) (K : Kernel α) (heap : KBuf α) (nlhs : Nat) (A : MxArray α)
    (prhs : List MxOpt) (hm : A.m ≠ 0) (hn : A.n ≠ 0) :
    let run := qr_pipeline w conv K heap nlhs A prhs
    (∃ q e rest, run.calls = q :: e :: rest ∧ q.lwork = -1 ∧ e.routine = q.routine ∧
      (q.routine.entry = .geqp3 ↔ nlhs = 3) ∧ (∀ c, c ∈ rest → c.routine.entry = .orgqr)) ∧
    (nlhs = 3 → ∀ c, c ∈ run.calls → c.routine.entry ≠ .geqrfp) ∧
    (nlhs ≠ 3 → ∀ c, c ∈ run.calls → c.routine.entry ≠ .geqp3) ∧
    (∀ plhs, run.out = .ok plhs → ((plhs 2).isSome = true ↔ nlhs = 3)) := by
  intro run
  have hc := qr_pipeline_calls w conv K heap nlhs A prhs hm hn
  obtain ⟨lw, hf⟩ := qrFactorize_calls w K heap nlhs A (qrOptions prhs).positive
  obtain ⟨lw2, hx⟩ := qrExpand_calls w K A.cplx (qrOptions prhs).econ A.m A.n
    (qrFactorize w K heap nlhs A (qrOptions prhs).positive).2.buf
  rw [hf, hx] at hc
  have hrest : ∀ c : KCall, c ∈ (if (qrFactorize w K heap nlhs A
        (qrOptions prhs).positive).2.info = 0 ∧ 2 ≤ nlhs then
        [(⟨⟨.orgqr, A.cplx, w⟩, A.m,
            if (qrOptions prhs).econ = true then min A.m A.n else A.m,
            some (min A.m A.n), A.m, -1⟩ : KCall),
         ⟨⟨.orgqr, A.cplx, w⟩, A.m,
            if (qrOptions prhs).econ = true then min A.m A.n else A.m,
            some (min A.m A.n), A.m, lw2⟩]
        else []) → c.routine.entry = .orgqr := by
    intro c hcm
    split at hcm
    · simp only [List.mem_cons, List.mem_singleton, List.not_mem_nil, or_false] at hcm
      rcases hcm with h | h <;> rw [h]
    · simp at hcm
  have hentry : ∀ c, c ∈ run.calls →
      c.routine.entry = (if nlhs = 3 then Entry.geqp3
        else if (qrOptions prhs).positive = true then .geqrfp else .geqrf) ∨
      c.routine.entry = .orgqr := by
    intro c hcm
    have hcm2 : c ∈ (qr_pipeline w conv K heap nlhs A prhs).calls := hcm
    rw [hc] at hcm2
    simp only [List.cons_append, List.nil_append, List.mem_cons] at hcm2
    rcases hcm2 with h | h | h
    · left; rw [h]
    · left; rw [h]
    · right; exact hrest c h
  refine ⟨⟨_, _, _, hc, rfl, rfl, ?_, hrest⟩, ?_, ?_, ?_⟩
  · show (if nlhs = 3 then Entry.geqp3
        else if (qrOptions prhs).positive = true then .geqrfp else .geqrf) = .geqp3 ↔ _
    by_cases h3 : nlhs = 3
    · simp [h3]
    · cases (qrOptions prhs).positive <;> simp [h3]
  · intro h3 c hcm
    rcases hentry c hcm with h | h
    · rw [h, if_pos h3]; decide
    · rw [h]; decide
  · intro h3 c hcm
    rcases hentry c hcm with h | h
    · rw [h, if_neg h3]
      cases (qrOptions prhs).positive <;> decide
    · rw [h]; decide
  · intro plhs h
    have hs := qr_pipeline_slots w conv K heap nlhs A prhs hm hn plhs h
    by_cases h3 : nlhs = 3
    · rw [hs.1 h3]
      simp [h3]
    · rw [hs.2.1 h3]
      simp [h3]

/-- Witness of C10: `qr1(A,'pos')` with 3 outputs on the 3 x 2 example never
calls the positive-diagonal entry. -/
theorem C10_three_outputs_select_pivoted_witness :
    (exA32.m ≠ 0 ∧ exA32.n ≠ 0) ∧
    ∀ c, c ∈ (qr_pipeline .wide (fun x : Int => x) exKernel exHeap 3 exA32 [optPos]).calls →
      c.routine.entry ≠ .geqrfp :=
  ⟨by decide,
   (C10_three_outputs_select_pivoted .wide (fun x : Int => x) exKernel exHeap 3 exA32
      [optPos] (by decide) (by decide)).2.1 rfl⟩

/-! ## Input validation -/

/-- C11: the QR entry point runs `qr_double` (class double) or `qr_single`
(class single) on the first input, whose complexity flag the pipeline reads,
when the number of inputs is 1, 2 or 3, at most 3 outputs are requested and the
first input is numeric, not sparse and of class double or single; in every
other case it raises an error without any kernel call.  The LQ entry point does
the same with 1 or 2 inputs and at most 2 outputs. -/
theorem C11_input_validation_gate {α : Type} [Zero α] [One α] (conv : Int → α)
    (K : Kernel α) (heap : KBuf α) (nlhs : Nat) (args : MexArgs α) :
    (∀ p0, args.first = some p0 →
      (args.nrhs = 1 ∨ args.nrhs = 2 ∨ args.nrhs = 3) → nlhs ≤ 3 →
      p0.numeric = true → p0.sparse = false →
      (p0.arr.classid = .mxDOUBLE_CLASS →
        mexFunction_qr conv K heap nlhs args = qr_double conv K heap nlhs p0.arr args.rest) ∧
      (p0.arr.classid = .mxSINGLE_CLASS →
        mexFunction_qr conv K heap nlhs args = qr_single conv K heap nlhs p0.arr args.rest)) ∧
    (¬ ((args.nrhs = 1 ∨ args.nrhs = 2 ∨ args.nrhs = 3) ∧ nlhs ≤ 3 ∧
        ∃ p0, args.first = some p0 ∧ p0.numeric = true ∧ p0.sparse = false ∧
          (p0.arr.classid = .mxDOUBLE_CLASS ∨ p0.arr.classid = .mxSINGLE_CLASS)) →
      (mexFunction_qr conv K heap nlhs args).calls = [] ∧
      ∃ msg, (mexFunction_qr conv K heap nlhs args).out = .error msg) ∧
    (∀ p0, args.first = some p0 →
      (args.nrhs = 1 ∨ args.nrhs = 2) → nlhs ≤ 2 →
      p0.numeric = true → p0.sparse = false →
      (p0.arr.classid = .mxDOUBLE_CLASS →
        mexFunction_lq K heap nlhs args = lq_double K heap nlhs p0.arr args.rest) ∧
      (p0.arr.classid = .mxSINGLE_CLASS →
        mexFunction_lq K heap nlhs args = lq_single K heap nlhs p0.arr args.rest)) ∧
    (¬ ((args.nrhs = 1 ∨ args.nrhs = 2) ∧ nlhs ≤ 2 ∧
        ∃ p0, args.first = some p0 ∧ p0.numeric = true ∧ p0.sparse = false ∧
          (p0.arr.classid = .mxDOUBLE_CLASS ∨ p0.arr.classid = .mxSINGLE_CLASS)) →
      (mexFunction_lq K heap nlhs args).calls = [] ∧
      ∃ msg, (mexFunction_lq K heap nlhs args).out = .error msg) := by
  refine ⟨?_, ?_, ?_, ?_⟩
  · intro p0 hp hr hl hnum hsp
    have h1 : ¬ (args.nrhs ≠ 1 ∧ args.nrhs ≠ 2 ∧ args.nrhs ≠ 3) := by omega
    have h2 : ¬ nlhs > 3 := by omega
    have h3 : ¬ ((!p0.numeric || p0.sparse) = true) := by simp [hnum, hsp]
    constructor
    · intro hc
      unfold mexFunction_qr
      rw [if_neg h1, if_neg h2, hp]
      simp only [if_neg h3, if_pos hc]
    · intro hc
      have hd : ¬ p0.arr.classid = .mxDOUBLE_CLASS := by rw [hc]; decide
      unfold mexFunction_qr
      rw [if_neg h1, if_neg h2, hp]
      simp only [if_neg h3, if_neg hd, if_pos hc]
  · intro hrej
    unfold mexFunction_qr
    by_cases h1 : args.nrhs ≠ 1 ∧ args.nrhs ≠ 2 ∧ args.nrhs ≠ 3
    · rw [if_pos h1]; exact ⟨rfl, _, rfl⟩
    · rw [if_neg h1]
      by_cases h2 : nlhs > 3
      · rw [if_pos h2]; exact ⟨rfl, _, rfl⟩
      · rw [if_neg h2]
        cases hf : args.first with
        | none => exact ⟨rfl, _, rfl⟩
        | some p0 =>
          simp only
          by_cases h3 : (!p0.numeric || p0.sparse) = true
          · rw [if_pos h3]; exact ⟨rfl, _, rfl⟩
          · rw [if_neg h3]
            by_cases hd : p0.arr.classid = .mxDOUBLE_CLASS
            · exfalso
              apply hrej
              refine ⟨by omega, by omega, p0, hf, ?_, ?_, Or.inl hd⟩
              · cases hn : p0.numeric <;> simp [hn] at h3 ⊢
              · cases hs : p0.sparse <;> simp [hs] at h3 ⊢
            · rw [if_neg hd]
              by_cases hs : p0.arr.classid = .mxSINGLE_CLASS
              · exfalso
                apply hrej
                refine ⟨by omega, by omega, p0, hf, ?_, ?_, Or.inr hs⟩
                · cases hn : p0.numeric <;> simp [hn] at h3 ⊢
                · cases hs2 : p0.sparse <;> simp [hs2] at h3 ⊢
              · rw [if_neg hs]; exact ⟨rfl, _, rfl⟩
  · intro p0 hp hr hl hnum hsp
    have h1 : ¬ (args.nrhs ≠ 1 ∧ args.nrhs ≠ 2) := by omega
    have h2 : ¬ nlhs > 2 := by omega
    have h3 : ¬ ((!p0.numeric || p0.sparse) = true) := by simp [hnum, hsp]
    constructor
    · intro hc
      unfold mexFunction_lq
      rw [if_neg h1, if_neg h2, hp]
      simp only [if_neg h3, if_pos hc]
    · intro hc
      have hd : ¬ p0.arr.classid = .mxDOUBLE_CLASS := by rw [hc]; decide
      unfold mexFunction_lq
      rw [if_neg h1, if_neg h2, hp]
      simp only [if_neg h3, if_neg hd, if_pos hc]
  · intro hrej
    unfold mexFunction_lq
    by_cases h1 : args.nrhs ≠ 1 ∧ args.nrhs ≠ 2
    · rw [if_pos h1]; exact ⟨rfl, _, rfl⟩
    · rw [if_neg h1]
      by_cases h2 : nlhs > 2
      · rw [if_pos h2]; exact ⟨rfl, _, rfl⟩
      · rw [if_neg h2]
        cases hf : args.first with
        | none => exact ⟨rfl, _, rfl⟩
        | some p0 =>
          simp only
          by_cases h3 : (!p0.numeric || p0.sparse) = true
          · rw [if_pos h3]; exact ⟨rfl, _, rfl⟩
          · rw [if_neg h3]
            by_cases hd : p0.arr.classid = .mxDOUBLE_CLASS
            · exfalso
              apply hrej
              refine ⟨by omega, by omega, p0, hf, ?_, ?_, Or.inl hd⟩
              · cases hn : p0.numeric <;> simp [hn] at h3 ⊢
              · cases hs : p0.sparse <;> simp [hs] at h3 ⊢
            · rw [if_neg hd]
              by_cases hs : p0.arr.classid = .mxSINGLE_CLASS
              · exfalso
                apply hrej
                refine ⟨by omega, by omega, p0, hf, ?_, ?_, Or.inr hs⟩
                · cases hn : p0.numeric <;> simp [hn] at h3 ⊢
                · cases hs2 : p0.sparse <;> simp [hs2] at h3 ⊢
              · rw [if_neg hs]; exact ⟨rfl, _, rfl⟩

/-- Witness of C11: a full double matrix with three outputs is dispatched to
`qr_double`, and a sparse one is rejected without a kernel call. -/
theorem C11_input_validation_gate_witness :
    mexFunction_qr (fun x : Int => x) exKernel exHeap 3 { first := some exArg32, rest := [] }
      = qr_double (fun x : Int => x) exKernel exHeap 3 exArg32.arr [] ∧
    (mexFunction_qr (fun x : Int => x) exKernel exHeap 3
      { first := some exArgSparse, rest := [] }).calls = [] :=
  ⟨((C11_input_validation_gate (fun x : Int => x) exKernel exHeap 3
      { first := some exArg32, rest := [] }).1 exArg32 rfl (by decide) (by decide) rfl rfl).1
      rfl,
   ((C11_input_validation_gate (fun x : Int => x) exKernel exHeap 3
      { first := some exArgSparse, rest := [] }).2.1 (by
        rintro ⟨_, _, p0, hp, _, hs, _⟩
        cases hp
        exact absurd hs (by decide))).1⟩

theorem qrOptions_positive_iff (prhs : List MxOpt) :
    (qrOptions prhs).positive = true ↔
      ∃ p1 rest, prhs = p1 :: rest ∧
        ((p1.isChar = true ∧ p1.str = "pos") ∨
         (p1.isChar = false ∧ ∃ p2, rest = [p2] ∧ p2.isChar = true ∧ p2.str = "pos")) := by
  cases prhs with
  | nil => simp [qrOptions]
  | cons p1 rest =>
    constructor
    · intro h
      refine ⟨p1, rest, rfl, ?_⟩
      unfold qrOptions at h
      cases hc : p1.isChar
      · right
        simp only [hc, Bool.false_eq_true, if_false] at h
        refine ⟨rfl, ?_⟩
        cases rest with
        | nil => simp at h
        | cons p2 r2 =>
          cases r2 with
          | nil =>
            simp only [Bool.and_eq_true, decide_eq_true_eq] at h
            exact ⟨p2, rfl, h.1, h.2⟩
          | cons p3 r3 => simp at h
      · left
        simp only [hc, if_true, decide_eq_true_eq] at h
        exact ⟨rfl, h⟩
    · rintro ⟨q1, r, he, h⟩
      injection he with h1 h2
      subst h1 h2
      unfold qrOptions
      rcases h with ⟨hc, hs⟩ | ⟨hc, p2, hr, h4, h5⟩
      · simp [hc, hs]
      · subst hr
        simp [hc, h4, h5]

/-- The first two kernel calls of `qr1.c` on a non-empty input. -/
theorem qr_pipeline_first_calls {α : Type} [Zero α] [One α] (w : Width)
    (conv : Int → α) (K : Kernel α) (heap : KBuf α) (nlhs : Nat) (A : MxArray α)
    (prhs : List MxOpt) (hm : A.m ≠ 0) (hn : A.n ≠ 0) :
    ∃ lw rest, (qr_pipeline w conv K heap nlhs A prhs).calls
      = ⟨⟨if nlhs = 3 then .geqp3 else if (qrOptions prhs).positive = true then .geqrfp
            else .geqrf, A.cplx, w⟩, A.m, A.n, none, A.m, -1⟩ ::
        ⟨⟨if nlhs = 3 then .geqp3 else if (qrOptions prhs).positive = true then .geqrfp
            else .geqrf, A.cplx, w⟩, A.m, A.n, none, A.m, lw⟩ :: rest := by
  have hc := qr_pipeline_calls w conv K heap nlhs A prhs hm hn
  obtain ⟨lw, hf⟩ := qrFactorize_calls w K heap nlhs A (qrOptions prhs).positive
  rw [hf] at hc
  exact ⟨lw, _, hc⟩

/-- C12: in `qr_double`/`qr_single` (at most three arguments) economy is
selected exactly when a second argument is present, is not a string and has
scalar value 0; positive-diagonal exactly when the second argument is the
string `'pos'`, or is not a string and a third argument is the string `'pos'`;
the vector form exactly when the second argument is the string `'vector'` or
economy is selected.  Hence `qr1(A,0,'pos')` decodes to economy and positive,
`qr1(A,'pos')` to positive without economy, `qr1(A,0)` to economy and vector;
with at most two outputs a positive request makes both factorize calls go to
the positive-diagonal entry, the scratch request is the size expression chosen
by the economy flag (`dc*m*m*element_size` in full mode on a tall matrix,
`dc*m*n*element_size` otherwise, computed in `size_t`, hence that many bytes
when the product is below `2^64`), and with three outputs an economy request
returns the permutation as a vector. -/
theorem C12_qr_option_decoding {α : Type} [Zero α] [One α] (w : Width)
    (conv : Int → α) (K : Kernel α) (heap : KBuf α) (nlhs : Nat) (A : MxArray α)
    (prhs : List MxOpt) (hm : A.m ≠ 0) (hn : A.n ≠ 0) (hlen : prhs.length ≤ 2) :
    let o := qrOptions prhs
    let run := qr_pipeline w conv K heap nlhs A prhs
    (o.econ = true ↔ ∃ p1 rest, prhs = p1 :: rest ∧ p1.isChar = false ∧ p1.scalar = 0) ∧
    (o.positive = true ↔ ∃ p1 rest, prhs = p1 :: rest ∧
        ((p1.isChar = true ∧ p1.str = "pos") ∨
         (p1.isChar = false ∧ ∃ p2 r2, rest = p2 :: r2 ∧ p2.isChar = true ∧ p2.str = "pos"))) ∧
    (o.vector = true ↔
        ((∃ p1 rest, prhs = p1 :: rest ∧ p1.isChar = true ∧ p1.str = "vector") ∨
          o.econ = true)) ∧
    (∀ z p : MxOpt, z.isChar = false → z.scalar = 0 → p.isChar = true → p.str = "pos" →
        qrOptions [z, p] = { econ := true, vector := true, positive := true } ∧
        qrOptions [p] = { econ := false, vector := false, positive := true } ∧
        qrOptions [z] = { econ := true, vector := true, positive := false }) ∧
    (nlhs ≤ 2 → o.positive = true → ∃ lw rest, run.calls
        = ⟨⟨.geqrfp, A.cplx, w⟩, A.m, A.n, none, A.m, -1⟩ ::
          ⟨⟨.geqrfp, A.cplx, w⟩, A.m, A.n, none, A.m, lw⟩ :: rest) ∧
    run.scratchBytes = ((if A.cplx = true then 2 else 1) *
        (if A.n < A.m ∧ o.econ = false then A.m * A.m else A.m * A.n) *
        w.elementSize) % SIZE_RANGE ∧
    ((if A.cplx = true then 2 else 1) *
        (if A.n < A.m ∧ o.econ = false then A.m * A.m else A.m * A.n) *
        w.elementSize < SIZE_RANGE →
      run.scratchBytes = (if A.cplx = true then 2 else 1) *
        (if A.n < A.m ∧ o.econ = false then A.m * A.m else A.m * A.n) * w.elementSize) ∧
    (nlhs = 3 → o.econ = true → ∀ plhs, run.out = .ok plhs →
        plhs 2 = some (qrPermutation w.classid (fun x => conv (castIndex w x)) true A.n
          (qrFactorize w K heap nlhs A o.positive).2.buf.jp)) := by
  intro o run
  have hb := (qr_pipeline_scratch w conv K heap nlhs A prhs hm hn).1.trans
    (qrScratchBytes_eq w A.cplx o.econ A.m A.n)
  refine ⟨qrOptions_econ_iff prhs, ?_, ?_, ?_, ?_, hb,
    fun hfit => hb.trans (Nat.mod_eq_of_lt hfit), ?_⟩
  · rw [qrOptions_positive_iff prhs]
    constructor
    · rintro ⟨p1, rest, he, h⟩
      refine ⟨p1, rest, he, ?_⟩
      rcases h with h | ⟨hc, p2, hr, h2⟩
      · exact Or.inl h
      · exact Or.inr ⟨hc, p2, [], hr, h2⟩
    · rintro ⟨p1, rest, he, h⟩
      refine ⟨p1, rest, he, ?_⟩
      rcases h with h | ⟨hc, p2, r2, hr, h2⟩
      · exact Or.inl h
      · refine Or.inr ⟨hc, p2, ?_, h2⟩
        subst he hr
        simp only [List.length_cons] at hlen
        have : r2.length = 0 := by omega
        rw [List.length_eq_zero] at this
        rw [this]
  · rw [qrOptions_vector_iff prhs, qrOptions_econ_iff prhs]
    constructor
    · rintro ⟨p1, rest, he, h | h⟩
      · exact Or.inl ⟨p1, rest, he, h⟩
      · exact Or.inr ⟨p1, rest, he, h⟩
    · rintro (⟨p1, rest, he, h⟩ | ⟨p1, rest, he, h⟩)
      · exact ⟨p1, rest, he, Or.inl h⟩
      · exact ⟨p1, rest, he, Or.inr h⟩
  · intro z p hz hz0 hp hps
    unfold qrOptions
    simp [hz, hz0, hp, hps]
  · intro h2 hpos
    obtain ⟨lw, rest, hc⟩ := qr_pipeline_first_calls w conv K heap nlhs A prhs hm hn
    have h3 : nlhs ≠ 3 := by omega
    rw [if_neg h3, if_pos hpos] at hc
    exact ⟨lw, rest, hc⟩
  · intro h3 he plhs h
    have hs := (qr_pipeline_slots w conv K heap nlhs A prhs hm hn plhs h).1 h3
    have hv : (qrOptions prhs).vector = true :=
      (qrOptions_vector_iff prhs).2 (by
        obtain ⟨p1, rest, h1, h2⟩ := (qrOptions_econ_iff prhs).1 he
        exact ⟨p1, rest, h1, Or.inr h2⟩)
    rw [hv] at hs
    exact hs

/-- Witness of C12: `qr1(A,0,'pos')` with two outputs on the 3 x 2 double
example uses economy sizing (6 scratch elements of 8 bytes). -/
theorem C12_qr_option_decoding_witness :
    (exA32.m ≠ 0 ∧ exA32.n ≠ 0 ∧ [optZero, optPos].length ≤ 2) ∧
    (qr_pipeline .wide (fun x : Int => x) exKernel exHeap 2 exA32
      [optZero, optPos]).scratchBytes = 6 * 8 :=
  ⟨by decide,
   ((C12_qr_option_decoding .wide (fun x : Int => x) exKernel exHeap 2 exA32
      [optZero, optPos] (by decide) (by decide) (by decide)).2.2.2.2.2.2.1
      (by decide)).trans (by decide)⟩

/-! ## Layout packing -/

/-- Nested loops none of whose bodies changes the observation `g` leave it. -/
theorem nest_frame {σ β : Type} (g : σ → β) (m n : Nat) (f : Nat → Nat → σ → σ) (s : σ)
    (h : ∀ i j t, i < m → j < n → g (f i j t) = g t) :
    g (forUp 0 m (fun i t => forUp 0 n (f i) t) s) = g s :=
  forUp_frame g 0 m _ s (fun i t _ hi => forUp_frame g 0 n (f i) t
    (fun j u _ hj => h i j u hi hj))

/-- If the body at `(i,j)` sets the observation to `c` and no other body changes
it, the nested loops end with `c`. -/
theorem nest_hit {σ β : Type} (g : σ → β) (m n : Nat) (f : Nat → Nat → σ → σ) (s : σ)
    (c : β) (i j : Nat) (hi : i < m) (hj : j < n) (hset : ∀ t, g (f i j t) = c)
    (hkeep : ∀ i2 j2 t, i2 < m → j2 < n → (i2 ≠ i ∨ j2 ≠ j) → g (f i2 j2 t) = g t) :
    g (forUp 0 m (fun i t => forUp 0 n (f i) t) s) = c := by
  refine forUp_hit g 0 m _ s c i (Nat.zero_le _) hi ?_ ?_
  · intro t
    refine forUp_hit g 0 n (f i) t c j (Nat.zero_le _) hj hset ?_
    intro k u hk1 hk2
    exact hkeep i k u hi hk2 (Or.inr (by omega))
  · intro k t hk1 hk2
    refine forUp_frame g 0 n (f k) t ?_
    intro j2 u _ hj2
    exact hkeep k j2 u hk2 hj2 (Or.inl (by omega))

theorem pack_real_at {α : Type} (m n lda : Nat) (Ipr Ipi Ap : Nat → α) (hl : m ≤ lda)
    (i j : Nat) (hi : i < m) (hj : j < n) :
    packInput false m n lda Ipr Ipi Ap (j * lda + i) = Ipr (j * m + i) := by
  unfold packInput
  simp only [Bool.false_eq_true, if_false]
  refine nest_hit (fun (t : Nat → α) => t (j * lda + i)) m n
    (fun i j Ap => store Ap (j*lda+i) (Ipr (j*m+i))) Ap _ i j hi hj
    (fun t => store_same _ _ _) ?_
  intro i2 j2 t hi2 hj2 hne
  refine store_other _ _ _ _ (fun e => ?_)
  have h1 := offset_col (lt_of_lt_of_le hi hl) (lt_of_lt_of_le hi2 hl) e
  subst h1
  omega

theorem pack_real_frame {α : Type} (m n lda : Nat) (Ipr Ipi Ap : Nat → α) (x : Nat)
    (hx : ∀ i j, i < m → j < n → x ≠ j * lda + i) :
    packInput false m n lda Ipr Ipi Ap x = Ap x := by
  unfold packInput
  simp only [Bool.false_eq_true, if_false]
  refine nest_frame (fun (t : Nat → α) => t x) m n
    (fun i j Ap => store Ap (j*lda+i) (Ipr (j*m+i))) Ap ?_
  intro i j t hi hj
  exact store_other _ _ _ _ (hx i j hi hj)

theorem pack_cplx_at {α : Type} (m n lda : Nat) (Ipr Ipi Ap : Nat → α) (hl : m ≤ lda)
    (i j : Nat) (hi : i < m) (hj : j < n) :
    packInput true m n lda Ipr Ipi Ap (2 * (j * lda + i)) = Ipr (j * m + i) ∧
    packInput true m n lda Ipr Ipi Ap (2 * (j * lda + i) + 1) = Ipi (j * m + i) := by
  unfold packInput
  simp only [if_true]
  have hoff : ∀ i2 j2, j2 * 2 * lda + 2 * i2 = 2 * (j2 * lda + i2) := fun i2 j2 => by ring
  have hsep : ∀ i2 j2, i2 < m → (i2 ≠ i ∨ j2 ≠ j) → j2 * lda + i2 ≠ j * lda + i := by
    intro i2 j2 hi2 hne e
    have h1 := offset_col (lt_of_lt_of_le hi2 hl) (lt_of_lt_of_le hi hl) e
    subst h1
    omega
  constructor
  · refine nest_hit (fun (t : Nat → α) => t (2 * (j * lda + i))) m n
      (fun i j Ap => store (store Ap (j*2*lda+2*i) (Ipr (j*m+i))) (j*2*lda+2*i+1)
        (Ipi (j*m+i))) Ap _ i j hi hj ?_ ?_
    · intro t
      show store (store t (j*2*lda+2*i) (Ipr (j*m+i))) (j*2*lda+2*i+1) (Ipi (j*m+i))
        (2 * (j * lda + i)) = _
      rw [hoff i j, store_other _ _ _ _ (by omega), store_same]
    · intro i2 j2 t hi2 hj2 hne
      show store (store t (j2*2*lda+2*i2) (Ipr (j2*m+i2))) (j2*2*lda+2*i2+1) (Ipi (j2*m+i2))
        (2 * (j * lda + i)) = _
      have := hsep i2 j2 hi2 hne
      rw [hoff i2 j2, store_other _ _ _ _ (by omega), store_other _ _ _ _ (by omega)]
  · refine nest_hit (fun (t : Nat → α) => t (2 * (j * lda + i) + 1)) m n
      (fun i j Ap => store (store Ap (j*2*lda+2*i) (Ipr (j*m+i))) (j*2*lda+2*i+1)
        (Ipi (j*m+i))) Ap _ i j hi hj ?_ ?_
    · intro t
      show store (store t (j*2*lda+2*i) (Ipr (j*m+i))) (j*2*lda+2*i+1) (Ipi (j*m+i))
        (2 * (j * lda + i) + 1) = _
      rw [hoff i j, store_same]
    · intro i2 j2 t hi2 hj2 hne
      show store (store t (j2*2*lda+2*i2) (Ipr (j2*m+i2))) (j2*2*lda+2*i2+1) (Ipi (j2*m+i2))
        (2 * (j * lda + i) + 1) = _
      have := hsep i2 j2 hi2 hne
      rw [hoff i2 j2, store_other _ _ _ _ (by omega), store_other _ _ _ _ (by omega)]

theorem pack_cplx_frame {α : Type} (m n lda : Nat) (Ipr Ipi Ap : Nat → α) (x : Nat)
    (hx : ∀ i j, i < m → j < n → x ≠ 2 * (j * lda + i) ∧ x ≠ 2 * (j * lda + i) + 1) :
    packInput true m n lda Ipr Ipi Ap x = Ap x := by
  unfold packInput
  simp only [if_true]
  refine nest_frame (fun (t : Nat → α) => t x) m n
    (fun i j Ap => store (store Ap (j*2*lda+2*i) (Ipr (j*m+i))) (j*2*lda+2*i+1)
      (Ipi (j*m+i))) Ap ?_
  intro i j t hi hj
  have hoff : j * 2 * lda + 2 * i = 2 * (j * lda + i) := by ring
  show store (store t (j*2*lda+2*i) (Ipr (j*m+i))) (j*2*lda+2*i+1) (Ipi (j*m+i)) x = t x
  rw [hoff, store_other _ _ _ _ (hx i j hi hj).2, store_other _ _ _ _ (hx i j hi hj).1]

/-- The buffer the first kernel call of `qr1.c` receives is the packed scratch. -/
theorem qrFactorize_input {α : Type} (w : Width) (K : Kernel α) (heap : KBuf α)
    (nlhs : Nat) (A : MxArray α) (positive : Bool) :
    ∃ q e, (qrFactorize w K heap nlhs A positive).1 = [q, e] ∧
      (qrFactorize w K heap nlhs A positive).2
        = K 1 e (K 0 q { a := packInput A.cplx A.m A.n A.m A.pr A.pi heap.a,
                         tau := heap.tau, jp := heap.jp }).buf := by
  unfold qrFactorize
  dsimp only
  by_cases h3 : nlhs = 3 <;> cases positive <;> cases hc : A.cplx <;>
    simp only [h3, decide_True, decide_False, if_true, if_false, Bool.false_eq_true] <;>
    exact ⟨_, _, rfl, rfl⟩

/-- The buffer the first kernel call of `lq.c` receives is the packed scratch. -/
theorem lqFactorize_input {α : Type} (w : Width) (K : Kernel α) (heap : KBuf α)
    (A : MxArray α) (econ : Bool) :
    ∃ q e, (lqFactorize w K heap A econ).1 = [q, e] ∧
      (lqFactorize w K heap A econ).2
        = K 1 e (K 0 q { a := packInput A.cplx A.m A.n (lqLda econ A.m A.n) A.pr A.pi heap.a,
                         tau := heap.tau, jp := heap.jp }).buf := by
  unfold lqFactorize
  dsimp only
  cases hc : A.cplx <;> simp only [if_true, if_false, Bool.false_eq_true] <;>
    exact ⟨_, _, rfl, rfl⟩

/-- C13 (counterexample): with allocated memory holding 7 everywhere, after
packing the 2 x 3 example for LQ in full mode (`lda = 3`) the padding cell at
row 2 of column 0 holds 7, and after packing the 3 x 2 example for QR in full
mode the cell at row 0 of the padding column 2 (offset 6 of the 9 allocated)
holds 7. -/
theorem C13_scratch_padding_counterexample :
    lqLda (lqEcon []) exA23.m exA23.n = 3 ∧
    packInput exA23.cplx exA23.m exA23.n (lqLda (lqEcon []) exA23.m exA23.n)
      exA23.pr exA23.pi exHeap.a (0 * 3 + 2) = 7 ∧
    qrScratchBytes .wide exA32.cplx (qrOptions []).econ exA32.m exA32.n = 9 * 8 ∧
    packInput exA32.cplx exA32.m exA32.n exA32.m exA32.pr exA32.pi exHeap.a (2 * 3 + 0) = 7 := by
  decide

/-- C13 (amended): packing writes only the cells that receive an input element;
every other cell of the scratch, in particular rows `m..lda-1` of each column
and every column `j ≥ n`, keeps what the allocated memory held before packing
(so it is zero exactly when that memory was). -/
theorem C13_scratch_padding_amended {α : Type} (cplx : Bool) (m n lda : Nat)
    (Ipr Ipi Ap0 : Nat → α) (hl : m ≤ lda) (i j : Nat) (hi : i < lda)
    (hpad : m ≤ i ∨ n ≤ j) :
    (cplx = false →
      packInput cplx m n lda Ipr Ipi Ap0 (j * lda + i) = Ap0 (j * lda + i)) ∧
    (cplx = true →
      packInput cplx m n lda Ipr Ipi Ap0 (2 * (j * lda + i)) = Ap0 (2 * (j * lda + i)) ∧
      packInput cplx m n lda Ipr Ipi Ap0 (2 * (j * lda + i) + 1)
        = Ap0 (2 * (j * lda + i) + 1)) := by
  have hsep : ∀ i2 j2, i2 < m → j2 < n → j * lda + i ≠ j2 * lda + i2 := by
    intro i2 j2 hi2 hj2 e
    have h1 := offset_col hi (lt_of_lt_of_le hi2 hl) e
    subst h1
    omega
  constructor
  · intro hc
    subst hc
    exact pack_real_frame m n lda Ipr Ipi Ap0 _ hsep
  · intro hc
    subst hc
    constructor
    · refine pack_cplx_frame m n lda Ipr Ipi Ap0 _ (fun i2 j2 hi2 hj2 => ?_)
      have := hsep i2 j2 hi2 hj2
      omega
    · refine pack_cplx_frame m n lda Ipr Ipi Ap0 _ (fun i2 j2 hi2 hj2 => ?_)
      have := hsep i2 j2 hi2 hj2
      omega

/-- Witness of C13: the padding cell of the 2 x 3 example keeps the heap value. -/
theorem C13_scratch_padding_amended_witness :
    packInput false 2 3 3 exA23.pr exA23.pi exHeap.a (0 * 3 + 2) = exHeap.a (0 * 3 + 2) :=
  (C13_scratch_padding_amended false 2 3 3 exA23.pr exA23.pi exHeap.a (by decide) 2 0
    (by decide) (Or.inl (by decide))).1 rfl

/-- C14: the scratch handed to the first kernel call is the packed input; for
every `i < m`, `j < n` it holds input element `(i,j)` at column-major offset
`j*lda+i` when the input is real, and its real and imaginary parts at offsets
`2*(j*lda+i)` and `2*(j*lda+i)+1` when it is complex, with `lda = m` in `qr1.c`
and the leading dimension of shape resolution (`m` or `n`) in `lq.c`; distinct
`(i,j)` go to distinct offsets. -/
theorem C14_layout_packing {α : Type} (w : Width) (K : Kernel α) (heap : KBuf α)
    (nlhs : Nat) (A : MxArray α) (positive econ : Bool) :
    let Pq := packInput A.cplx A.m A.n A.m A.pr A.pi heap.a
    let lda := lqLda econ A.m A.n
    let Pl := packInput A.cplx A.m A.n lda A.pr A.pi heap.a
    (∃ q e, (qrFactorize w K heap nlhs A positive).1 = [q, e] ∧
      (qrFactorize w K heap nlhs A positive).2
        = K 1 e (K 0 q { a := Pq, tau := heap.tau, jp := heap.jp }).buf) ∧
    (∃ q e, (lqFactorize w K heap A econ).1 = [q, e] ∧
      (lqFactorize w K heap A econ).2
        = K 1 e (K 0 q { a := Pl, tau := heap.tau, jp := heap.jp }).buf) ∧
    (lda = A.m ∨ lda = A.n) ∧ A.m ≤ lda ∧
    (∀ i j, i < A.m → j < A.n →
      (A.cplx = false → Pq (j * A.m + i) = A.re i j ∧ Pl (j * lda + i) = A.re i j) ∧
      (A.cplx = true →
        Pq (2 * (j * A.m + i)) = A.re i j ∧ Pq (2 * (j * A.m + i) + 1) = A.im i j ∧
        Pl (2 * (j * lda + i)) = A.re i j ∧ Pl (2 * (j * lda + i) + 1) = A.im i j)) ∧
    (∀ i j i2 j2, i < A.m → i2 < A.m →
      (j * A.m + i = j2 * A.m + i2 → i = i2 ∧ j = j2) ∧
      (j * lda + i = j2 * lda + i2 → i = i2 ∧ j = j2)) := by
  intro Pq lda Pl
  have hlda : lda = A.m ∨ lda = A.n := by
    show lqLda econ A.m A.n = A.m ∨ lqLda econ A.m A.n = A.n
    unfold lqLda
    split_ifs
    · exact Or.inr rfl
    · exact Or.inl rfl
  have hle : A.m ≤ lda := by
    show A.m ≤ lqLda econ A.m A.n
    unfold lqLda
    split_ifs with h
    · omega
    · exact le_refl _
  refine ⟨qrFactorize_input w K heap nlhs A positive, lqFactorize_input w K heap A econ,
    hlda, hle, ?_, ?_⟩
  · intro i j hi hj
    constructor
    · intro hc
      show packInput A.cplx A.m A.n A.m A.pr A.pi heap.a _ = _ ∧
        packInput A.cplx A.m A.n lda A.pr A.pi heap.a _ = _
      rw [hc]
      exact ⟨pack_real_at A.m A.n A.m A.pr A.pi heap.a (le_refl _) i j hi hj,
        pack_real_at A.m A.n lda A.pr A.pi heap.a hle i j hi hj⟩
    · intro hc
      show packInput A.cplx A.m A.n A.m A.pr A.pi heap.a _ = _ ∧
        packInput A.cplx A.m A.n A.m A.pr A.pi heap.a _ = _ ∧
        packInput A.cplx A.m A.n lda A.pr A.pi heap.a _ = _ ∧
        packInput A.cplx A.m A.n lda A.pr A.pi heap.a _ = _
      rw [hc]
      have h1 := pack_cplx_at A.m A.n A.m A.pr A.pi heap.a (le_refl _) i j hi hj
      have h2 := pack_cplx_at A.m A.n lda A.pr A.pi heap.a hle i j hi hj
      exact ⟨h1.1, h1.2, h2.1, h2.2⟩
  · intro i j i2 j2 hi hi2
    constructor
    · intro e
      have h1 := offset_col hi hi2 e
      subst h1
      exact ⟨by omega, rfl⟩
    · intro e
      have h1 := offset_col (lt_of_lt_of_le hi hle) (lt_of_lt_of_le hi2 hle) e
      subst h1
      exact ⟨by omega, rfl⟩

/-- Witness of C14: element (1,2) of the 2 x 3 example sits at offset `2*3+1` of
the LQ scratch in full mode. -/
theorem C14_layout_packing_witness :
    packInput exA23.cplx exA23.m exA23.n (lqLda false exA23.m exA23.n) exA23.pr exA23.pi
      exHeap.a (2 * lqLda false exA23.m exA23.n + 1) = exA23.re 1 2 :=
  ((C14_layout_packing .wide exKernel exHeap 2 exA23 false false).2.2.2.2.1 1 2
    (by decide) (by decide)).1 rfl |>.2

/-! ## Scratch sizing -/

theorem qr_pipeline_empty {α : Type} [Zero α] [One α] (w : Width) (conv : Int → α)
    (K : Kernel α) (heap : KBuf α) (nlhs : Nat) (A : MxArray α) (prhs : List MxOpt)
    (hz : A.m = 0 ∨ A.n = 0) :
    qr_pipeline w conv K heap nlhs A prhs
      = { calls := [], scratchBytes := 0, lda := 0,
          out := .ok (qrEmpty w.classid A.cplx nlhs A.m A.n) } := by
  unfold qr_pipeline
  simp only [if_pos hz]

theorem lq_pipeline_empty {α : Type} [Zero α] [One α] (w : Width)
    (K : Kernel α) (heap : KBuf α) (nlhs : Nat) (A : MxArray α) (prhs : List MxOpt)
    (hz : A.m = 0 ∨ A.n = 0) :
    lq_pipeline w K heap nlhs A prhs
      = { calls := [], scratchBytes := 0, lda := 0,
          out := .ok (lqEmpty w.classid A.cplx nlhs A.m A.n) } := by
  unfold lq_pipeline
  simp only [if_pos hz]

/-- In `lq.c` every slot below `max(nlhs, 1)` is assigned on success, for every
input and every `nlhs ≤ 2`. -/
theorem lq_outputs_assigned {α : Type} [Zero α] [One α] (w : Width)
    (K : Kernel α) (heap : KBuf α) (nlhs : Nat) (A : MxArray α) (prhs : List MxOpt)
    (hl : nlhs ≤ 2) (plhs : Nat → Option (MxArray α))
    (h : (lq_pipeline w K heap nlhs A prhs).out = .ok plhs) (k : Nat)
    (hk : k < max nlhs 1) : (plhs k).isSome = true := by
  by_cases hz : A.m = 0 ∨ A.n = 0
  · rw [lq_pipeline_empty w K heap nlhs A prhs hz] at h
    have he : lqEmpty w.classid A.cplx nlhs A.m A.n = plhs := by
      injection h
    have sl := lqEmpty_spec (α := α) w.classid A.cplx nlhs A.m A.n
    rw [he] at sl
    rcases Nat.eq_zero_or_pos k with h0 | h0
    · obtain ⟨T, hT, _⟩ := sl.1
      rw [h0, hT]; rfl
    · have hk1 : k = 1 := by omega
      obtain ⟨Q, hQ, _⟩ := sl.2 (by omega)
      rw [hk1, hQ]; rfl
  · have hm : A.m ≠ 0 := fun e => hz (Or.inl e)
    have hn : A.n ≠ 0 := fun e => hz (Or.inr e)
    rcases Nat.eq_zero_or_pos k with h0 | h0
    · rw [h0, lq_pipeline_triangular_slot w K heap nlhs A prhs hm hn plhs h]; rfl
    · have hk1 : k = 1 := by omega
      rw [hk1, (lq_pipeline_orthogonal_slot w K heap nlhs A prhs hm hn (by omega) plhs h).2]
      rfl

/-- In `qr1.c` every slot below `nlhs` is assigned on success when `nlhs` is 1 or
2, and when `nlhs` is 3 and the input is non-empty. -/
theorem qr_outputs_assigned {α : Type} [Zero α] [One α] (w : Width) (conv : Int → α)
    (K : Kernel α) (heap : KBuf α) (nlhs : Nat) (A : MxArray α) (prhs : List MxOpt)
    (h1 : 1 ≤ nlhs) (h3 : nlhs ≤ 3) (hne : nlhs = 3 → A.m ≠ 0 ∧ A.n ≠ 0)
    (plhs : Nat → Option (MxArray α))
    (h : (qr_pipeline w conv K heap nlhs A prhs).out = .ok plhs) (k : Nat)
    (hk : k < nlhs) : (plhs k).isSome = true := by
  by_cases hz : A.m = 0 ∨ A.n = 0
  · have hl2 : nlhs ≤ 2 := by
      by_contra hc
      have h33 : nlhs = 3 := by omega
      rcases hz with e | e
      · exact (hne h33).1 e
      · exact (hne h33).2 e
    rw [qr_pipeline_empty w conv K heap nlhs A prhs hz] at h
    have he : qrEmpty w.classid A.cplx nlhs A.m A.n = plhs := by
      injection h
    have sq := qrEmpty_spec (α := α) w.classid A.cplx nlhs A.m A.n
    rw [he] at sq
    obtain ⟨T, hT, _⟩ := sq.1
    by_cases hn1 : nlhs = 1
    · have hk0 : k = 0 := by omega
      rw [if_pos hn1] at hT
      rw [hk0, hT]; rfl
    · rw [if_neg hn1] at hT
      obtain ⟨Q, hQ, _⟩ := sq.2 hn1
      rcases Nat.eq_zero_or_pos k with h0 | h0
      · rw [h0, hQ]; rfl
      · have hk1 : k = 1 := by omega
        rw [hk1, hT]; rfl
  · have hm : A.m ≠ 0 := fun e => hz (Or.inl e)
    have hn : A.n ≠ 0 := fun e => hz (Or.inr e)
    have hT := qr_pipeline_triangular_slot w conv K heap nlhs A prhs hm hn plhs h
    by_cases hn1 : nlhs = 1
    · have hk0 : k = 0 := by omega
      rw [if_pos hn1] at hT
      rw [hk0, hT]; rfl
    · rw [if_neg hn1] at hT
      have hQ := (qr_pipeline_orthogonal_slot w conv K heap nlhs A prhs hm hn (by omega)
        plhs h).2
      have hE := (qr_pipeline_slots w conv K heap nlhs A prhs hm hn plhs h).1
      rcases Nat.eq_zero_or_pos k with h0 | h0
      · rw [h0, hQ]; rfl
      · by_cases hk1 : k = 1
        · rw [hk1, hT]; rfl
        · have hk2 : k = 2 := by omega
          rw [hk2, hE (by omega)]; rfl

/-- C17 (failing input): the entry point passes a call with no output requested
(`nlhs = 0`) on the full real double 3 x 2 example to `qr_double`, which
succeeds with slot 0 unassigned and the triangular factor in slot 1; with no output requested on the zero-size 3 x 0 example slot 0
holds the 3 x 3 identity and not the 3 x 0 triangular factor, which is in slot
1; and with three outputs requested on that zero-size example it succeeds with
slot 2 unassigned. -/
theorem C17_outputs_assigned_failing_input :
    mexFunction_qr (fun x : Int => x) exKernel exHeap 0 ⟨some exArg32, []⟩
      = qr_double (fun x : Int => x) exKernel exHeap 0 exA32 [] ∧
    (∃ plhs, (qr_double (fun x : Int => x) exKernel exHeap 0 exA32 []).out = .ok plhs ∧
      (plhs 0).isNone = true ∧ (plhs 1).isSome = true) ∧
    (∃ plhs Q, (qr_double (fun x : Int => x) exKernel exHeap 0 exA30 []).out = .ok plhs ∧
      plhs 0 = some Q ∧ Q.m = 3 ∧ Q.n = 3 ∧ (plhs 1).isSome = true) ∧
    (∃ plhs, (qr_double (fun x : Int => x) exKernel exHeap 3 exA30 []).out = .ok plhs ∧
      (plhs 0).isSome = true ∧ (plhs 1).isSome = true ∧ (plhs 2).isNone = true) := by
  refine ⟨rfl, ?_, ?_, ?_⟩
  · obtain ⟨plhs, hp⟩ := (qr_pipeline_ok_iff .wide (fun x : Int => x) exKernel exHeap 0
      exA32 [] (by decide) (by decide)).2 ⟨by decide, fun h => absurd h (by decide)⟩
    have h0 := (qr_pipeline_slots .wide (fun x : Int => x) exKernel exHeap 0 exA32 []
      (by decide) (by decide) plhs hp).2.2.1 (by decide)
    have h1 := qr_pipeline_triangular_slot .wide (fun x : Int => x) exKernel exHeap 0
      exA32 [] (by decide) (by decide) plhs hp
    have h0b : plhs 0 = none := h0
    have h1b : plhs 1 = _ := h1
    refine ⟨plhs, hp, ?_, ?_⟩
    · rw [h0b]; rfl
    · rw [h1b]; rfl
  · have hq := qr_pipeline_empty .wide (fun x : Int => x) exKernel exHeap 0 exA30 []
      (by decide)
    have sq := qrEmpty_spec (α := Int) Width.wide.classid exA30.cplx 0 exA30.m exA30.n
    obtain ⟨T, hT, _⟩ := sq.1
    obtain ⟨Q, hQ, hQm, hQn, _⟩ := sq.2 (by decide)
    have hT1 : qrEmpty (α := Int) Width.wide.classid exA30.cplx 0 exA30.m exA30.n 1
        = some T := hT
    refine ⟨_, Q, congrArg Run.out hq, hQ, hQm, hQn, ?_⟩
    rw [hT1]; rfl
  · have hq := qr_pipeline_empty .wide (fun x : Int => x) exKernel exHeap 3 exA30 []
      (by decide)
    have sq := qrEmpty_spec (α := Int) Width.wide.classid exA30.cplx 3 exA30.m exA30.n
    obtain ⟨T, hT, _⟩ := sq.1
    obtain ⟨Q, hQ, _⟩ := sq.2 (by decide)
    have hT1 : qrEmpty (α := Int) Width.wide.classid exA30.cplx 3 exA30.m exA30.n 1
        = some T := hT
    refine ⟨_, congrArg Run.out hq, ?_, ?_, rfl⟩
    · rw [hQ]; rfl
    · rw [hT1]; rfl


/-! ## Economy mode with nothing to truncate -/

theorem run_eq {α : Type} (r s : Run α) (h1 : r.calls = s.calls)
    (h2 : r.scratchBytes = s.scratchBytes) (h3 : r.lda = s.lda) (h4 : r.out = s.out) :
    r = s := by
  obtain ⟨a, b, c, d⟩ := r
  obtain ⟨a2, b2, c2, d2⟩ := s
  have e1 : a = a2 := h1
  have e2 : b = b2 := h2
  have e3 : c = c2 := h3
  have e4 : d = d2 := h4
  subst e1 e2 e3 e4
  rfl

theorem qrScratchBytes_wide (w : Width) (cplx econ : Bool) (m n : Nat) (h : m ≤ n) :
    qrScratchBytes w cplx econ m n = qrScratchBytes w cplx false m n := by
  have h1 : ¬ (n < m ∧ econ ≠ true) := fun hc => absurd hc.1 (by omega)
  have h2 : ¬ (n < m ∧ false ≠ true) := fun hc => absurd hc.1 (by omega)
  unfold qrScratchBytes
  dsimp only
  rw [if_neg h1, if_neg h2]

theorem qrExpand_wide {α : Type} (w : Width) (K : Kernel α) (cplx econ : Bool)
    (m n : Nat) (buf : KBuf α) (h : m ≤ n) :
    qrExpand w K cplx econ m n buf = qrExpand w K cplx false m n buf := by
  have hw : (if econ = true then min m n else m) = m := by
    split_ifs
    · exact Nat.min_eq_left h
    · rfl
  unfold qrExpand
  dsimp only
  rw [hw]
  rfl

theorem qrTriangular_wide {α : Type} [Zero α] (classid : ClassID) (cplx econ : Bool)
    (m n : Nat) (Ap : Nat → α) (h : m ≤ n) :
    qrTriangular classid cplx econ m n Ap = qrTriangular classid cplx false m n Ap := by
  have h1 : ¬ (econ = true ∧ n < m) := fun hc => absurd hc.2 (by omega)
  have h2 : ¬ (false = true ∧ n < m) := fun hc => absurd hc.2 (by omega)
  unfold qrTriangular
  dsimp only
  rw [if_neg h1, if_neg h2]

theorem lqLda_tall (econ : Bool) (m n : Nat) (h : n ≤ m) : lqLda econ m n = m := by
  have h1 : ¬ (m < n ∧ econ ≠ true) := fun hc => absurd hc.1 (by omega)
  unfold lqLda
  rw [if_neg h1]

theorem lqScratchBytes_tall (w : Width) (cplx econ : Bool) (m n : Nat) (h : n ≤ m) :
    lqScratchBytes w cplx econ m n = lqScratchBytes w cplx false m n := by
  have h1 : ¬ (m < n ∧ econ ≠ true) := fun hc => absurd hc.1 (by omega)
  have h2 : ¬ (m < n ∧ false ≠ true) := fun hc => absurd hc.1 (by omega)
  unfold lqScratchBytes
  dsimp only
  rw [if_neg h1, if_neg h2]

theorem lqFactorize_tall {α : Type} (w : Width) (K : Kernel α) (heap : KBuf α)
    (A : MxArray α) (econ : Bool) (h : A.n ≤ A.m) :
    lqFactorize w K heap A econ = lqFactorize w K heap A false := by
  unfold lqFactorize
  dsimp only
  rw [lqLda_tall econ A.m A.n h, lqLda_tall false A.m A.n h]

theorem lqExpand_tall {α : Type} (w : Width) (K : Kernel α) (cplx econ : Bool)
    (m n lda : Nat) (buf : KBuf α) (h : n ≤ m) :
    lqExpand w K cplx econ m n lda buf = lqExpand w K cplx false m n lda buf := by
  have hw : (if econ = true then min m n else n) = n := by
    split_ifs
    · exact Nat.min_eq_right h
    · rfl
  unfold lqExpand
  dsimp only
  rw [hw]
  rfl

theorem lqTriangular_tall {α : Type} [Zero α] (classid : ClassID) (cplx econ : Bool)
    (m n lda : Nat) (Ap : Nat → α) (h : n ≤ m) :
    lqTriangular classid cplx econ m n lda Ap = lqTriangular classid cplx false m n lda Ap := by
  have h1 : ¬ (econ = true ∧ m < n) := fun hc => absurd hc.2 (by omega)
  have h2 : ¬ (false = true ∧ m < n) := fun hc => absurd hc.2 (by omega)
  unfold lqTriangular
  dsimp only
  rw [if_neg h1, if_neg h2]


/-- C18: when `m ≤ n` and at most two outputs are requested, two runs of the QR
pipeline on the same input whose option lists decode to the same `positive`
flag are the same run, whatever their economy flags: same kernel calls with the
same arguments, same scratch size and `lda`, same error or same output slots
(hence identical shapes and contents of the triangular and orthogonal
outputs).  When `n ≤ m` any two runs of the LQ pipeline on the same input are
the same run, whatever their economy flags.  This holds for every kernel. -/
theorem C18_economy_noop_nothing_to_truncate {α : Type} [Zero α] [One α] (w : Width)
    (conv : Int → α) (K : Kernel α) (heap : KBuf α) (nlhs : Nat) (A : MxArray α)
    (prhs1 prhs2 : List MxOpt) :
    (A.m ≤ A.n → nlhs ≤ 2 → (qrOptions prhs1).positive = (qrOptions prhs2).positive →
      qr_pipeline w conv K heap nlhs A prhs1 = qr_pipeline w conv K heap nlhs A prhs2) ∧
    (A.n ≤ A.m →
      lq_pipeline w K heap nlhs A prhs1 = lq_pipeline w K heap nlhs A prhs2) := by
  constructor
  · intro h hl hpos
    by_cases hz : A.m = 0 ∨ A.n = 0
    · rw [qr_pipeline_empty w conv K heap nlhs A prhs1 hz,
        qr_pipeline_empty w conv K heap nlhs A prhs2 hz]
    · have hm : A.m ≠ 0 := fun e => hz (Or.inl e)
      have hn : A.n ≠ 0 := fun e => hz (Or.inr e)
      have h3 : ¬ nlhs = 3 := by omega
      have hw : ∀ e : Bool, (if e = true then min A.m A.n else A.m) = A.m := by
        intro e
        split_ifs
        · exact Nat.min_eq_left h
        · rfl
      refine run_eq _ _ ?_ ?_ ?_ ?_
      · rw [qr_pipeline_calls w conv K heap nlhs A prhs1 hm hn,
          qr_pipeline_calls w conv K heap nlhs A prhs2 hm hn, hpos,
          qrExpand_wide w K A.cplx (qrOptions prhs1).econ A.m A.n _ h,
          qrExpand_wide w K A.cplx (qrOptions prhs2).econ A.m A.n _ h]
      · rw [(qr_pipeline_scratch w conv K heap nlhs A prhs1 hm hn).1,
          (qr_pipeline_scratch w conv K heap nlhs A prhs2 hm hn).1,
          qrScratchBytes_wide w A.cplx (qrOptions prhs1).econ A.m A.n h,
          qrScratchBytes_wide w A.cplx (qrOptions prhs2).econ A.m A.n h]
      · rw [(qr_pipeline_scratch w conv K heap nlhs A prhs1 hm hn).2,
          (qr_pipeline_scratch w conv K heap nlhs A prhs2 hm hn).2]
      · rw [qr_pipeline_out w conv K heap nlhs A prhs1 hm hn,
          qr_pipeline_out w conv K heap nlhs A prhs2 hm hn]
        dsimp only
        rw [hpos, if_neg h3, if_neg h3,
          qrExpand_wide w K A.cplx (qrOptions prhs1).econ A.m A.n _ h,
          qrExpand_wide w K A.cplx (qrOptions prhs2).econ A.m A.n _ h,
          qrTriangular_wide w.classid A.cplx (qrOptions prhs1).econ A.m A.n _ h,
          qrTriangular_wide w.classid A.cplx (qrOptions prhs2).econ A.m A.n _ h,
          hw (qrOptions prhs1).econ, hw (qrOptions prhs2).econ]
  · intro h
    by_cases hz : A.m = 0 ∨ A.n = 0
    · rw [lq_pipeline_empty w K heap nlhs A prhs1 hz,
        lq_pipeline_empty w K heap nlhs A prhs2 hz]
    · have hm : A.m ≠ 0 := fun e => hz (Or.inl e)
      have hn : A.n ≠ 0 := fun e => hz (Or.inr e)
      have hw : ∀ e : Bool, (if e = true then min A.m A.n else A.n) = A.n := by
        intro e
        split_ifs
        · exact Nat.min_eq_right h
        · rfl
      refine run_eq _ _ ?_ ?_ ?_ ?_
      · rw [lq_pipeline_calls w K heap nlhs A prhs1 hm hn,
          lq_pipeline_calls w K heap nlhs A prhs2 hm hn,
          lqLda_tall (lqEcon prhs1) A.m A.n h, lqLda_tall (lqEcon prhs2) A.m A.n h,
          lqFactorize_tall w K heap A (lqEcon prhs1) h,
          lqFactorize_tall w K heap A (lqEcon prhs2) h,
          lqExpand_tall w K A.cplx (lqEcon prhs1) A.m A.n A.m _ h,
          lqExpand_tall w K A.cplx (lqEcon prhs2) A.m A.n A.m _ h]
      · rw [(lq_pipeline_scratch w K heap nlhs A prhs1 hm hn).1,
          (lq_pipeline_scratch w K heap nlhs A prhs2 hm hn).1,
          lqScratchBytes_tall w A.cplx (lqEcon prhs1) A.m A.n h,
          lqScratchBytes_tall w A.cplx (lqEcon prhs2) A.m A.n h]
      · rw [(lq_pipeline_scratch w K heap nlhs A prhs1 hm hn).2,
          (lq_pipeline_scratch w K heap nlhs A prhs2 hm hn).2,
          lqLda_tall (lqEcon prhs1) A.m A.n h, lqLda_tall (lqEcon prhs2) A.m A.n h]
      · rw [lq_pipeline_out w K heap nlhs A prhs1 hm hn,
          lq_pipeline_out w K heap nlhs A prhs2 hm hn]
        dsimp only
        rw [lqLda_tall (lqEcon prhs1) A.m A.n h, lqLda_tall (lqEcon prhs2) A.m A.n h,
          lqFactorize_tall w K heap A (lqEcon prhs1) h,
          lqFactorize_tall w K heap A (lqEcon prhs2) h,
          lqExpand_tall w K A.cplx (lqEcon prhs1) A.m A.n A.m _ h,
          lqExpand_tall w K A.cplx (lqEcon prhs2) A.m A.n A.m _ h,
          lqTriangular_tall w.classid A.cplx (lqEcon prhs1) A.m A.n A.m _ h,
          lqTriangular_tall w.classid A.cplx (lqEcon prhs2) A.m A.n A.m _ h,
          hw (lqEcon prhs1), hw (lqEcon prhs2)]

/-- Witness of C18: on the 2 x 3 example the two-output QR run with the economy
request `0` equals the run with no option, and on the 3 x 2 example the
two-output LQ run with the economy request equals the run with no option. -/
theorem C18_economy_noop_nothing_to_truncate_witness :
    ((qrOptions [optZero]).econ = true ∧ (qrOptions []).econ = false ∧
      exA23.m ≤ exA23.n ∧ 2 ≤ 2 ∧
      (qrOptions [optZero]).positive = (qrOptions []).positive) ∧
    qr_pipeline .wide (fun x : Int => x) exKernel exHeap 2 exA23 [optZero]
      = qr_pipeline .wide (fun x : Int => x) exKernel exHeap 2 exA23 [] ∧
    (lqEcon [optZero] = true ∧ lqEcon [] = false ∧ exA32.n ≤ exA32.m) ∧
    lq_pipeline .wide exKernel exHeap 2 exA32 [optZero]
      = lq_pipeline .wide exKernel exHeap 2 exA32 [] :=
  ⟨by decide,
   (C18_economy_noop_nothing_to_truncate .wide (fun x : Int => x) exKernel exHeap 2 exA23
      [optZero] []).1 (by decide) (by decide) (by decide),
   by decide,
   (C18_economy_noop_nothing_to_truncate .wide (fun x : Int => x) exKernel exHeap 2 exA32
      [optZero] []).2 (by decide)⟩

end Factor
